import Mathlib

/-!
Shallow embedding of the libqrtr-glib discovery/routing core
(src/libqrtr-glib/qrtr-node.c, qrtr-control-socket.c, qrtr-utils.c).

Modelling conventions:
* `guint32` values are natural numbers reduced modulo 2^32 (`wrap32`);
  `gint32` results are integers obtained by `toInt32`.
* `GHashTable` (with `g_direct_hash`) is an association list with the
  operations `htLookup` / `htInsert` (replace on key collision, as
  `g_hash_table_insert` does) / `htRemove`.
* Heap identity of a `struct QrtrServiceInfo *` is modelled by the
  `objId` field: each allocation in `qrtr_node_add_service_info` gets a
  fresh id from the per-node counter `next_id`.  `g_list_remove`
  compares pointers, hence entries are compared by `objId`.
* `g_list_last (NULL)->data` is a NULL-pointer dereference in C;
  `qrtr_node_lookup_port` therefore returns an `Option Int` where
  `none` marks that crash and `some z` a normally returned `gint32`.
-/

def wrap32 (x : Nat) : Nat := x % 4294967296

/-- Interpretation of a 32-bit unsigned value as a C `gint32`. -/
def toInt32 (x : Nat) : Int :=
  if x % 4294967296 < 2147483648 then ((x % 4294967296 : Nat) : Int)
  else ((x % 4294967296 : Nat) : Int) - 4294967296

/-- `(a - b)` computed in 32-bit unsigned arithmetic. -/
def sub32 (a b : Nat) : Nat :=
  (a % 4294967296 + (4294967296 - b % 4294967296)) % 4294967296

/-- `struct QrtrServiceInfo` from qrtr-node.c, plus `objId`, the model of
the heap pointer identity of the allocated struct. -/
structure QrtrServiceInfo where
  service : Nat
  port : Nat
  version : Nat
  instanceVal : Nat
  objId : Nat
  deriving DecidableEq, Repr

/-- `sort_services_by_version` from qrtr-node.c: `a->version - b->version`
computed on `guint32` and returned as a C `gint`. -/
def sort_services_by_version (a b : QrtrServiceInfo) : Int :=
  toInt32 (sub32 a.version b.version)

/-- GLib `g_list_insert_sorted` specialised to the comparator used in the
source: walk while `cmp (new, cur) > 0`, insert before the first element
that does not compare greater. -/
def g_list_insert_sorted : List QrtrServiceInfo → QrtrServiceInfo → List QrtrServiceInfo
  | [], e => [e]
  | x :: xs, e =>
      if 0 < sort_services_by_version e x then x :: g_list_insert_sorted xs e
      else e :: x :: xs

/-- GLib `g_list_remove`: drop the first cell whose data is the given
pointer (pointer identity = `objId`). -/
def g_list_remove : List QrtrServiceInfo → QrtrServiceInfo → List QrtrServiceInfo
  | [], _ => []
  | x :: xs, e => if x.objId = e.objId then xs else x :: g_list_remove xs e

/-- `g_hash_table_lookup` on a direct-hash table. -/
def htLookup {α : Type} (k : Nat) : List (Nat × α) → Option α
  | [] => none
  | (k', v) :: rest => if k = k' then some v else htLookup k rest

/-- `g_hash_table_insert`: replaces the value if the key is present. -/
def htInsert {α : Type} (k : Nat) (v : α) : List (Nat × α) → List (Nat × α)
  | [] => [(k, v)]
  | (k', v') :: rest =>
      if k = k' then (k, v) :: rest else (k', v') :: htInsert k v rest

/-- `g_hash_table_remove`: the key disappears from the table. -/
def htRemove {α : Type} (k : Nat) : List (Nat × α) → List (Nat × α)
  | [] => []
  | (k', v) :: rest =>
      if k = k' then htRemove k rest else (k', v) :: htRemove k rest

/-- The mutable per-node state of `struct _QrtrNodePrivate`:
`service_list` (flat `GList`), `service_index` (service → `ListHolder`
contents) and `port_index` (port → entry).  `next_id` is the allocation
counter backing `objId`. -/
structure NodeState where
  service_list : List QrtrServiceInfo
  service_index : List (Nat × List QrtrServiceInfo)
  port_index : List (Nat × QrtrServiceInfo)
  next_id : Nat
  deriving DecidableEq, Repr

def emptyNode : NodeState := ⟨[], [], [], 0⟩

/-- `service_index_add_info` from qrtr-node.c: fetch (or create) the
`ListHolder` for the service and insert the entry sorted by version. -/
def service_index_add_info (idx : List (Nat × List QrtrServiceInfo))
    (service : Nat) (info : QrtrServiceInfo) : List (Nat × List QrtrServiceInfo) :=
  match htLookup service idx with
  | none => htInsert service (g_list_insert_sorted [] info) idx
  | some l => htInsert service (g_list_insert_sorted l info) idx

/-- `service_index_remove_info` from qrtr-node.c: if the holder for
`service` is absent nothing happens; otherwise the entry is removed from
the holder's list (the holder itself stays in the table even when the
list becomes empty). -/
def service_index_remove_info (idx : List (Nat × List QrtrServiceInfo))
    (service : Nat) (info : QrtrServiceInfo) : List (Nat × List QrtrServiceInfo) :=
  match htLookup service idx with
  | none => idx
  | some l => htInsert service (g_list_remove l info) idx

/-- `qrtr_node_add_service_info` from qrtr-node.c. -/
def qrtr_node_add_service_info (node : NodeState)
    (service port version instanceVal : Nat) : NodeState :=
  let info : QrtrServiceInfo :=
    ⟨wrap32 service, wrap32 port, wrap32 version, wrap32 instanceVal, node.next_id⟩
  { service_list := node.service_list ++ [info]
    service_index := service_index_add_info node.service_index info.service info
    port_index := htInsert info.port info node.port_index
    next_id := node.next_id + 1 }

/-- `qrtr_node_remove_service_info` from qrtr-node.c: look the entry up
by port; if absent only log; otherwise remove it from the service index
(under the *caller-supplied* service), the port index and the flat list. -/
def qrtr_node_remove_service_info (node : NodeState)
    (service port version instanceVal : Nat) : NodeState :=
  match htLookup (wrap32 port) node.port_index with
  | none => node
  | some info =>
      { service_list := g_list_remove node.service_list info
        service_index := service_index_remove_info node.service_index (wrap32 service) info
        port_index := htRemove (wrap32 port) node.port_index
        next_id := node.next_id }

/-- `qrtr_node_lookup_port` from qrtr-node.c.  `none` models the NULL
dereference `g_list_last (NULL)->data` performed when the holder exists
but its list is empty; `some z` is the returned `gint32`. -/
def qrtr_node_lookup_port (node : NodeState) (service : Nat) : Option Int :=
  match htLookup (wrap32 service) node.service_index with
  | none => some (-1)
  | some l =>
      match l.getLast? with
      | none => none
      | some info => some (toInt32 info.port)

/-- `qrtr_node_lookup_service` from qrtr-node.c. -/
def qrtr_node_lookup_service (node : NodeState) (port : Nat) : Int :=
  match htLookup (wrap32 port) node.port_index with
  | none => -1
  | some info => toInt32 info.service

/-- `qrtr_node_has_services` from qrtr-node.c. -/
def qrtr_node_has_services (node : NodeState) : Bool :=
  !node.service_list.isEmpty

/-- A call to one of the two table-mutating entry points of qrtr-node.c,
with the `guint32` arguments in source order. -/
inductive NodeOp where
  | add (service port version instanceVal : Nat)
  | remove (service port version instanceVal : Nat)
  deriving DecidableEq, Repr

def applyOp (node : NodeState) : NodeOp → NodeState
  | .add s p v i => qrtr_node_add_service_info node s p v i
  | .remove s p v i => qrtr_node_remove_service_info node s p v i

def runOps (ops : List NodeOp) : NodeState := ops.foldl applyOp emptyNode

/-- Strict order maintained inside a `ListHolder` list: ascending by
version; entries of equal version sit in reverse allocation order. -/
def entryLt (a b : QrtrServiceInfo) : Prop :=
  a.version < b.version ∨ (a.version = b.version ∧ b.objId < a.objId)

instance : DecidableRel entryLt := fun a b => by
  unfold entryLt
  infer_instance


/-! ### Unfolding helpers for the node operations -/

/-- The `QrtrServiceInfo` allocated by `qrtr_node_add_service_info`. -/
def mkInfo (node : NodeState) (service port version instanceVal : Nat) : QrtrServiceInfo :=
  ⟨wrap32 service, wrap32 port, wrap32 version, wrap32 instanceVal, node.next_id⟩

/-- Precondition on an `add`: the port is not yet in the table and the
version fits in 31 bits (always true for the `instance & 0xff` values
the control socket produces). -/
def wfAdd (n : NodeState) (p v : Nat) : Prop :=
  htLookup (wrap32 p) n.port_index = none ∧ wrap32 v < 2147483648

/-- Precondition on a `remove`: if the port is registered, the caller
passes the service stored for it (the control socket does this for all
kernel-generated `DEL_SERVER` packets). -/
def wfRemove (n : NodeState) (s p : Nat) : Prop :=
  match htLookup (wrap32 p) n.port_index with
  | none => True
  | some e => e.service = wrap32 s

instance (n : NodeState) (p v : Nat) : Decidable (wfAdd n p v) := by
  unfold wfAdd
  infer_instance

instance (n : NodeState) (s p : Nat) : Decidable (wfRemove n s p) :=
  match h : htLookup (wrap32 p) n.port_index with
  | none => .isTrue (by unfold wfRemove; rw [h]; trivial)
  | some e => decidable_of_iff (e.service = wrap32 s) (by unfold wfRemove; rw [h])

def wfOp (n : NodeState) : NodeOp → Prop
  | .add _ p v _ => wfAdd n p v
  | .remove s p _ _ => wfRemove n s p

instance (n : NodeState) (op : NodeOp) : Decidable (wfOp n op) := by
  cases op <;> (unfold wfOp; infer_instance)

def wfOps : NodeState → List NodeOp → Prop
  | _, [] => True
  | n, op :: rest => wfOp n op ∧ wfOps (applyOp n op) rest

instance : ∀ (n : NodeState) (ops : List NodeOp), Decidable (wfOps n ops)
  | _, [] => .isTrue trivial
  | n, op :: rest =>
      have : Decidable (wfOps (applyOp n op) rest) := instDecidableWfOps _ _
      by unfold wfOps; infer_instance

/-! ### The node invariant -/

/-- Invariant tying the three structures of a `QrtrNode` together.  It
holds for every node state reachable from the empty node by
well-formed calls (fresh port on add, version below `2^31`, matching
service on remove). -/
structure NodeInv (n : NodeState) : Prop where
  flat_ids : (n.service_list.map (fun e => e.objId)).Nodup
  flat_ids_lt : ∀ e ∈ n.service_list, e.objId < n.next_id
  flat_ports : (n.service_list.map (fun e => e.port)).Nodup
  flat_bounds : ∀ e ∈ n.service_list,
    e.version < 2147483648 ∧ e.port < 4294967296 ∧ e.service < 4294967296
  port_iff : ∀ q e, htLookup q n.port_index = some e ↔ (e ∈ n.service_list ∧ e.port = q)
  svc_keys : (n.service_index.map Prod.fst).Nodup
  svc_iff : ∀ s e, (∃ l, htLookup s n.service_index = some l ∧ e ∈ l)
      ↔ (e ∈ n.service_list ∧ e.service = s)
  svc_ids : ∀ s l, htLookup s n.service_index = some l →
      (l.map (fun e => e.objId)).Nodup
  svc_sorted : ∀ s l, htLookup s n.service_index = some l → l.Pairwise entryLt

/-! ### Spec-side statement of the index-consistency property -/

/-- The index-consistency property exactly as the specification states
it (spec section 8, property 1): the key set of the port index equals
the set of ports of the flat list, the union of the per-service lists
covers exactly the ports of the flat list, and every per-service list
is ascending by version.  This definition follows the specification's
words; the claims compare it against states produced by the code. -/
def specIndexConsistent (n : NodeState) : Prop :=
  (∀ q ∈ n.port_index.map Prod.fst, ∃ e ∈ n.service_list, e.port = q) ∧
  (∀ e ∈ n.service_list, e.port ∈ n.port_index.map Prod.fst) ∧
  (∀ pr ∈ n.service_index, ∀ x ∈ pr.2, ∃ e ∈ n.service_list, e.port = x.port) ∧
  (∀ e ∈ n.service_list, ∃ pr ∈ n.service_index, ∃ x ∈ pr.2, x.port = e.port) ∧
  (∀ pr ∈ n.service_index, List.Pairwise (fun a b => a.version ≤ b.version) pr.2)

instance (n : NodeState) : Decidable (specIndexConsistent n) := by
  unfold specIndexConsistent
  infer_instance

/-! ### The control socket (qrtr-control-socket.c) -/

/-- Events observable through the four `QrtrControlSocket` signals. -/
inductive BusEvent where
  | nodeAdded (node : Nat)
  | nodeRemoved (node : Nat)
  | serviceAdded (node service : Nat)
  | serviceRemoved (node service : Nat)
  deriving DecidableEq, Repr

/-- The `node_map` of `struct _QrtrControlSocketPrivate`. -/
def BusState : Type := List (Nat × NodeState)

def emptyBus : BusState := []

/-- `add_service_info` from qrtr-control-socket.c: if the node is
unknown it is created, registered and `node-added` is emitted; then the
service is added to the node and `service-added` is emitted. -/
def add_service_info (st : BusState)
    (node_id port service version instanceVal : Nat) : BusState × List BusEvent :=
  match htLookup node_id st with
  | none =>
      (htInsert node_id
          (qrtr_node_add_service_info emptyNode service port version instanceVal) st,
        [.nodeAdded node_id, .serviceAdded node_id service])
  | some node =>
      (htInsert node_id
          (qrtr_node_add_service_info node service port version instanceVal) st,
        [.serviceAdded node_id service])

/-- `remove_service_info` from qrtr-control-socket.c: an unknown node
only logs a warning; otherwise the service is removed from the node,
`service-removed` is emitted *unconditionally*, and if the node has no
services left `node-removed` is emitted and the node is dropped. -/
def remove_service_info (st : BusState)
    (node_id port service version instanceVal : Nat) : BusState × List BusEvent :=
  match htLookup node_id st with
  | none => (st, [])
  | some node =>
      if qrtr_node_has_services
          (qrtr_node_remove_service_info node service port version instanceVal) then
        (htInsert node_id
            (qrtr_node_remove_service_info node service port version instanceVal) st,
          [.serviceRemoved node_id service])
      else
        (htRemove node_id st,
          [.serviceRemoved node_id service, .nodeRemoved node_id])

/-- `qrtr_control_socket_peek_node`. -/
def qrtr_control_socket_peek_node (st : BusState) (node_id : Nat) : Option NodeState :=
  htLookup node_id st

/-- `qrtr_control_socket_get_node`: same lookup; the reference count it
takes has no observable effect in the model. -/
def qrtr_control_socket_get_node (st : BusState) (node_id : Nat) : Option NodeState :=
  qrtr_control_socket_peek_node st node_id

/-- A datagram arriving at `qrtr_ctrl_message_cb`: a NEW_SERVER or
DEL_SERVER control packet carrying four `guint32` payload words (after
`GUINT32_FROM_LE`), a packet with any other command, or a short
packet. -/
inductive CtrlPacket where
  | newServer (service instanceWord node port : Nat)
  | delServer (service instanceWord node port : Nat)
  | otherCmd
  | shortPacket
  deriving DecidableEq, Repr

/-- `qrtr_ctrl_message_cb` from qrtr-control-socket.c: short packets and
unknown commands are ignored; otherwise the instance word is split as
`version = word & 0xff`, `instance = word >> 8` and the matching
handler runs. -/
def qrtr_ctrl_message_cb (st : BusState) : CtrlPacket → BusState × List BusEvent
  | .newServer service iw node port =>
      add_service_info st (wrap32 node) (wrap32 port) (wrap32 service)
        (wrap32 iw % 256) (wrap32 iw / 256)
  | .delServer service iw node port =>
      remove_service_info st (wrap32 node) (wrap32 port) (wrap32 service)
        (wrap32 iw % 256) (wrap32 iw / 256)
  | .otherCmd => (st, [])
  | .shortPacket => (st, [])

/-- Process a sequence of control packets, accumulating emitted events. -/
def processPackets : BusState × List BusEvent → List CtrlPacket → BusState × List BusEvent
  | acc, [] => acc
  | (st, evs), pk :: rest =>
      processPackets ((qrtr_ctrl_message_cb st pk).1,
        evs ++ (qrtr_ctrl_message_cb st pk).2) rest

/-- Number of occurrences of an event in an emission trace. -/
def countEv : List BusEvent → BusEvent → Nat
  | [], _ => 0
  | e :: rest, ev => (if e = ev then 1 else 0) + countEv rest ev

/-- Number of live entries for `service` on node `node`. -/
def entriesCount (st : BusState) (node service : Nat) : Nat :=
  match htLookup node st with
  | none => 0
  | some nd => (nd.service_list.filter (fun e => e.service = service)).length

/-- Well-formedness of a packet with respect to the current bus state:
a DEL_SERVER for a known node must name a registered port together with
the service stored for it (kernel-generated DEL_SERVER packets delete
exactly what the paired NEW_SERVER announced).  All other packets are
unconstrained. -/
def wfDelNode (nd : NodeState) (service port : Nat) : Prop :=
  match htLookup (wrap32 port) nd.port_index with
  | none => False
  | some e => e.service = wrap32 service

instance (nd : NodeState) (service port : Nat) : Decidable (wfDelNode nd service port) :=
  match h : htLookup (wrap32 port) nd.port_index with
  | none => .isFalse (by simp only [wfDelNode]; rw [h]; exact fun hc => hc)
  | some e =>
      decidable_of_iff (e.service = wrap32 service) (by simp only [wfDelNode]; rw [h])

def wfCtrl (st : BusState) : CtrlPacket → Prop
  | .delServer service _ node port =>
      match htLookup (wrap32 node) st with
      | none => True
      | some nd => wfDelNode nd service port
  | _ => True

instance (st : BusState) (pk : CtrlPacket) : Decidable (wfCtrl st pk) :=
  match pk with
  | .delServer service iw node port =>
      match h1 : htLookup (wrap32 node) st with
      | none => .isTrue (by simp only [wfCtrl]; rw [h1]; trivial)
      | some nd =>
          decidable_of_iff (wfDelNode nd service port)
            (by simp only [wfCtrl]; rw [h1])
  | .newServer service iw node port => .isTrue trivial
  | .otherCmd => .isTrue trivial
  | .shortPacket => .isTrue trivial

def wfCtrlSeq : BusState → List CtrlPacket → Prop
  | _, [] => True
  | st, pk :: rest => wfCtrl st pk ∧ wfCtrlSeq (qrtr_ctrl_message_cb st pk).1 rest

instance : ∀ (st : BusState) (pks : List CtrlPacket), Decidable (wfCtrlSeq st pks)
  | _, [] => .isTrue trivial
  | st, pk :: rest =>
      have : Decidable (wfCtrlSeq (qrtr_ctrl_message_cb st pk).1 rest) :=
        instDecidableWfCtrlSeq _ _
      by unfold wfCtrlSeq; infer_instance

/-- Per-node bookkeeping needed for the event-counting argument:
allocation ids are unique and below the counter, and the port index
points into the flat list. -/
def BusNodeOk (nd : NodeState) : Prop :=
  (nd.service_list.map (fun e => e.objId)).Nodup ∧
  (∀ e ∈ nd.service_list, e.objId < nd.next_id) ∧
  (∀ p e, htLookup p nd.port_index = some e → e ∈ nd.service_list ∧ e.port = p)

def BusInv (st : BusState) : Prop :=
  ∀ node nd, htLookup node st = some nd → BusNodeOk nd

/-! ### wait_for_node (qrtr-control-socket.c) -/

/-- `WaitForNodeContext`: the target node id, whether the `node-added`
signal handler is connected (`added_id != 0`) and whether the timeout
source exists. -/
structure WaitForNodeContext where
  node_id : Nat
  added_id : Bool
  timeout_source : Bool
  deriving DecidableEq, Repr

/-- How the waiter's `GTask` was completed. -/
inductive WaitOutcome where
  | delivered
  | timedOut
  deriving DecidableEq, Repr

/-- A waiter: its context and the completions performed on its task
(`g_task_return_pointer` / `g_task_return_new_error`) so far. -/
structure WaitTask where
  ctx : WaitForNodeContext
  completions : List WaitOutcome
  deriving DecidableEq, Repr

/-- `wait_for_node_context_cleanup`: destroy the timeout source and
disconnect the `node-added` handler. -/
def wait_for_node_context_cleanup (c : WaitForNodeContext) : WaitForNodeContext :=
  ⟨c.node_id, false, false⟩

/-- Events that can reach a waiter on the single-threaded loop: a
`node-added` emission, the firing of the waiter's timeout source, or a
cancellation request on the `GCancellable` passed by the caller. -/
inductive WaitEvent where
  | nodeAdded (id : Nat)
  | timerFire
  | cancelRequest
  deriving DecidableEq, Repr

/-- Delivery of one event.  `wait_for_node_timeout_cb` runs only while
the source exists and `wait_for_node_added_cb` only while the handler
is connected; both call `wait_for_node_context_cleanup` first and then
complete the task.  The code connects nothing to the cancellable, so a
cancellation request reaches no callback. -/
def waitStep (t : WaitTask) : WaitEvent → WaitTask
  | .timerFire =>
      if t.ctx.timeout_source then
        ⟨wait_for_node_context_cleanup t.ctx, t.completions ++ [.timedOut]⟩
      else t
  | .nodeAdded id =>
      if t.ctx.added_id then
        if id = t.ctx.node_id then
          ⟨wait_for_node_context_cleanup t.ctx, t.completions ++ [.delivered]⟩
        else t
      else t
  | .cancelRequest => t

def waitRun (t : WaitTask) (evs : List WaitEvent) : WaitTask :=
  evs.foldl waitStep t

/-- `qrtr_control_socket_wait_for_node`: if the node already exists the
task is completed immediately; otherwise the `node-added` handler is
connected and a timeout source is created only when `timeout_ms > 0`. -/
def qrtr_control_socket_wait_for_node (st : BusState)
    (node_id timeout_ms : Nat) : WaitTask :=
  if (htLookup node_id st).isSome then
    ⟨⟨node_id, false, false⟩, [.delivered]⟩
  else
    ⟨⟨node_id, true, decide (0 < timeout_ms)⟩, []⟩

/-! ### URI helpers (qrtr-utils.c) -/

/-- The characters of `QRTR_URI_PREFIX`, "qrtr://". -/
def qrtrUriHead : List Char := ['q', 'r', 't', 'r', ':', '/', '/']

/-- `g_ascii_tolower`. -/
def g_ascii_tolower (c : Char) : Char :=
  if 'A' ≤ c ∧ c ≤ 'Z' then Char.ofNat (c.toNat + 32) else c

/-- `g_ascii_strncasecmp` on NUL-free strings; the byte count comes
first so that the recursion is structural in it (C order is
`(s1, s2, n)`).  A list ending first behaves as the NUL terminator. -/
def g_ascii_strncasecmp : Nat → List Char → List Char → Int
  | 0, _, _ => 0
  | _ + 1, [], [] => 0
  | _ + 1, [], b :: _ => -(Int.ofNat (g_ascii_tolower b).toNat)
  | _ + 1, a :: _, [] => Int.ofNat (g_ascii_tolower a).toNat
  | n + 1, a :: as, b :: bs =>
      if (g_ascii_tolower a).toNat = (g_ascii_tolower b).toNat then
        g_ascii_strncasecmp n as bs
      else Int.ofNat (g_ascii_tolower a).toNat - Int.ofNat (g_ascii_tolower b).toNat

/-- `isspace` of the C locale. -/
def isSpaceChar (c : Char) : Bool :=
  c = ' ' ∨ c = Char.ofNat 9 ∨ c = Char.ofNat 10 ∨ c = Char.ofNat 11 ∨
    c = Char.ofNat 12 ∨ c = Char.ofNat 13

def isDigitChar (c : Char) : Bool := '0' ≤ c ∧ c ≤ '9'

/-- `strtoul (start, &endp, 10)`: skip whitespace, accept one optional
sign, then greedily consume decimal digits.  Returns the
`unsigned long` value (64 bits, clamped to `ULONG_MAX` on overflow and
negated modulo `2^64` after a minus sign) together with whether any
digits were consumed (`endp != start`; on no conversion `endp` is reset
to `start`). -/
def strtoul10 (s : List Char) : Nat × Bool :=
  let s1 := s.dropWhile isSpaceChar
  let neg : Bool := match s1 with
    | c :: _ => c = '-'
    | [] => false
  let s2 : List Char := match s1 with
    | c :: r => if c = '-' ∨ c = '+' then r else s1
    | [] => s1
  let ds := s2.takeWhile isDigitChar
  if ds.isEmpty then (0, false)
  else
    let v0 : Nat := ds.foldl (fun a c => 10 * a + (c.toNat - 48)) 0
    let v1 := if 18446744073709551616 ≤ v0 then 18446744073709551615 else v0
    ((if neg then (18446744073709551616 - v1 % 18446744073709551616)
        % 18446744073709551616 else v1), true)

/-- Decimal rendering performed by `g_strdup_printf ("%u", node_id)`. -/
def decimalChars (n : Nat) : List Char :=
  if n = 0 then ['0']
  else (Nat.digits 10 n).reverse.map (fun d => Char.ofNat (48 + d))

/-- `qrtr_get_uri_for_node`. -/
def qrtr_get_uri_for_node (node_id : Nat) : List Char :=
  qrtrUriHead ++ decimalChars node_id

/-- `qrtr_get_node_for_uri`; `none` models returning FALSE, `some v`
returning TRUE with `*node_id = v` (the `guint` assignment truncates
the `unsigned long` to 32 bits). -/
def qrtr_get_node_for_uri (name : List Char) : Option Nat :=
  if g_ascii_strncasecmp 7 name qrtrUriHead ≠ 0 then none
  else
    let r := strtoul10 (name.drop 7)
    if ¬ r.2 then none
    else some (r.1 % 4294967296)

/-! ### Basic facts about the hash-table model -/

theorem htLookup_htInsert_self {α : Type} (k : Nat) (v : α) (l : List (Nat × α)) :
    htLookup k (htInsert k v l) = some v := by
  induction l with
  | nil => simp [htInsert, htLookup]
  | cons kv rest ih =>
      obtain ⟨k', v'⟩ := kv
      by_cases h : k = k' <;> simp [htInsert, htLookup, h, ih]

theorem htLookup_htInsert_ne {α : Type} {k q : Nat} (v : α) (l : List (Nat × α))
    (h : q ≠ k) : htLookup q (htInsert k v l) = htLookup q l := by
  induction l with
  | nil => simp [htInsert, htLookup, h]
  | cons kv rest ih =>
      obtain ⟨k', v'⟩ := kv
      by_cases hk : k = k'
      · subst hk; simp [htInsert, htLookup, h]
      · by_cases hq : q = k' <;> simp [htInsert, htLookup, hk, hq, ih]

theorem htLookup_htRemove_self {α : Type} (k : Nat) (l : List (Nat × α)) :
    htLookup k (htRemove k l) = none := by
  induction l with
  | nil => rfl
  | cons kv rest ih =>
      obtain ⟨k', v'⟩ := kv
      by_cases h : k = k'
      · simpa [htRemove, h] using ih
      · simp [htRemove, htLookup, h, ih]

theorem htLookup_htRemove_ne {α : Type} {k q : Nat} (l : List (Nat × α))
    (h : q ≠ k) : htLookup q (htRemove k l) = htLookup q l := by
  induction l with
  | nil => simp [htRemove, htLookup]
  | cons kv rest ih =>
      obtain ⟨k', v'⟩ := kv
      by_cases hk : k = k'
      · subst hk; simp [htRemove, htLookup, h, ih]
      · by_cases hq : q = k' <;> simp [htRemove, htLookup, hk, hq, ih]

theorem htLookup_eq_none_iff {α : Type} (k : Nat) (l : List (Nat × α)) :
    htLookup k l = none ↔ k ∉ l.map Prod.fst := by
  induction l with
  | nil => simp [htLookup]
  | cons kv rest ih =>
      obtain ⟨k', v'⟩ := kv
      by_cases h : k = k' <;> simp [htLookup, h, ih]

theorem htLookup_mem_keys {α : Type} {k : Nat} {v : α} {l : List (Nat × α)}
    (h : htLookup k l = some v) : k ∈ l.map Prod.fst := by
  by_contra hk
  rw [← htLookup_eq_none_iff] at hk
  rw [h] at hk
  exact Option.noConfusion hk

theorem mem_iff_htLookup_of_keys_nodup {α : Type} {l : List (Nat × α)}
    (hnd : (l.map Prod.fst).Nodup) (k : Nat) (v : α) :
    (k, v) ∈ l ↔ htLookup k l = some v := by
  induction l with
  | nil => simp [htLookup]
  | cons kv rest ih =>
      obtain ⟨k', v'⟩ := kv
      simp only [List.map_cons, List.nodup_cons] at hnd
      by_cases h : k = k'
      · subst h
        constructor
        · intro hm
          rcases List.mem_cons.mp hm with h1 | h1
          · injection h1 with h2 h3
            subst h3
            simp [htLookup]
          · exact absurd (List.mem_map_of_mem Prod.fst h1) hnd.1
        · intro hl
          have hv : v' = v := by simpa [htLookup] using hl
          subst hv
          exact List.mem_cons_self _ _
      · rw [List.mem_cons]
        simp only [htLookup, if_neg h]
        rw [← ih hnd.2]
        constructor
        · rintro (h1 | h1)
          · injection h1 with h2 h3
            exact absurd h2 h
          · exact h1
        · exact Or.inr

theorem htInsert_keys_mem {α : Type} (k : Nat) (v : α) (l : List (Nat × α)) (q : Nat) :
    q ∈ (htInsert k v l).map Prod.fst ↔ q = k ∨ q ∈ l.map Prod.fst := by
  induction l with
  | nil => simp [htInsert]
  | cons kv rest ih =>
      obtain ⟨k', v'⟩ := kv
      by_cases h : k = k'
      · subst h
        have he : htInsert k v ((k, v') :: rest) = (k, v) :: rest := by simp [htInsert]
        rw [he]
        simp only [List.map_cons, List.mem_cons]
        tauto
      · simp only [htInsert, if_neg h, List.map_cons, List.mem_cons, ih]
        tauto

theorem htInsert_keys_nodup {α : Type} {l : List (Nat × α)}
    (hnd : (l.map Prod.fst).Nodup) (k : Nat) (v : α) :
    ((htInsert k v l).map Prod.fst).Nodup := by
  induction l with
  | nil => simp [htInsert]
  | cons kv rest ih =>
      obtain ⟨k', v'⟩ := kv
      simp only [List.map_cons, List.nodup_cons] at hnd
      by_cases h : k = k'
      · subst h
        have he : htInsert k v ((k, v') :: rest) = (k, v) :: rest := by simp [htInsert]
        rw [he]
        simp only [List.map_cons, List.nodup_cons]
        exact hnd
      · simp only [htInsert, if_neg h, List.map_cons, List.nodup_cons]
        refine ⟨?_, ih hnd.2⟩
        rw [htInsert_keys_mem]
        rintro (h1 | h1)
        · exact h h1.symm
        · exact hnd.1 h1

/-! ### The comparator and `g_list_insert_sorted` -/

theorem sort_services_pos_iff {a b : QrtrServiceInfo}
    (ha : a.version < 2147483648) (hb : b.version < 2147483648) :
    0 < sort_services_by_version a b ↔ b.version < a.version := by
  unfold sort_services_by_version toInt32 sub32
  split <;> omega

theorem entryLt_version_le {a b : QrtrServiceInfo} (h : entryLt a b) :
    a.version ≤ b.version := by
  rcases h with h | ⟨h, _⟩
  · exact Nat.le_of_lt h
  · exact Nat.le_of_eq h

theorem mem_g_list_insert_sorted {l : List QrtrServiceInfo}
    {e x : QrtrServiceInfo} :
    x ∈ g_list_insert_sorted l e ↔ x = e ∨ x ∈ l := by
  induction l with
  | nil => simp [g_list_insert_sorted]
  | cons y ys ih =>
      by_cases h : 0 < sort_services_by_version e y
      · simp only [g_list_insert_sorted, if_pos h, List.mem_cons, ih]
        tauto
      · simp [g_list_insert_sorted, if_neg h]

theorem g_list_insert_sorted_perm (l : List QrtrServiceInfo)
    (e : QrtrServiceInfo) : List.Perm (g_list_insert_sorted l e) (e :: l) := by
  induction l with
  | nil => simp [g_list_insert_sorted]
  | cons y ys ih =>
      by_cases h : 0 < sort_services_by_version e y
      · simp only [g_list_insert_sorted, if_pos h]
        exact (ih.cons y).trans (List.Perm.swap e y ys)
      · simp [g_list_insert_sorted, if_neg h]

theorem g_list_insert_sorted_pairwise {l : List QrtrServiceInfo}
    {e : QrtrServiceInfo}
    (hs : l.Pairwise entryLt)
    (hb : ∀ x ∈ l, x.version < 2147483648 ∧ x.objId < e.objId)
    (he : e.version < 2147483648) :
    (g_list_insert_sorted l e).Pairwise entryLt := by
  induction l with
  | nil => simp [g_list_insert_sorted]
  | cons y ys ih =>
      have hy := hb y (List.mem_cons_self y ys)
      rw [List.pairwise_cons] at hs
      by_cases h : 0 < sort_services_by_version e y
      · have hvy : y.version < e.version :=
          (sort_services_pos_iff he hy.1).mp h
        simp only [g_list_insert_sorted, if_pos h, List.pairwise_cons]
        refine ⟨?_, ih hs.2 (fun x hx => hb x (List.mem_cons_of_mem y hx))⟩
        intro x hx
        rcases mem_g_list_insert_sorted.mp hx with rfl | hx'
        · exact Or.inl hvy
        · exact hs.1 x hx'
      · have hvy : e.version ≤ y.version := by
          rcases Nat.lt_or_ge y.version e.version with hlt | hge
          · exact absurd ((sort_services_pos_iff he hy.1).mpr hlt) h
          · exact hge
        simp only [g_list_insert_sorted, if_neg h, List.pairwise_cons]
        refine ⟨?_, hs⟩
        intro x hx
        rcases List.mem_cons.mp hx with rfl | hx'
        · rcases Nat.lt_or_ge e.version x.version with hlt | hge
          · exact Or.inl hlt
          · exact Or.inr ⟨Nat.le_antisymm hvy hge, hy.2⟩
        · have hxx := hs.1 x hx'
          have hxv := hb x (List.mem_cons_of_mem y hx')
          rcases hxx with h1 | ⟨h1, h2⟩
          · exact Or.inl (Nat.lt_of_le_of_lt hvy h1)
          · rcases Nat.lt_or_ge e.version x.version with hlt | hge
            · exact Or.inl hlt
            · exact Or.inr ⟨Nat.le_antisymm (h1 ▸ hvy) hge, hxv.2⟩

/-! ### `g_list_remove` -/

theorem g_list_remove_sublist (l : List QrtrServiceInfo)
    (e : QrtrServiceInfo) : (g_list_remove l e).Sublist l := by
  induction l with
  | nil => simp [g_list_remove]
  | cons x xs ih =>
      by_cases h : x.objId = e.objId
      · simp only [g_list_remove, if_pos h]
        exact List.sublist_cons_self x xs
      · simp only [g_list_remove, if_neg h]
        exact ih.cons₂ x

theorem objId_inj {l : List QrtrServiceInfo}
    (hnd : (l.map (fun e => e.objId)).Nodup)
    {a b : QrtrServiceInfo} (ha : a ∈ l) (hb : b ∈ l)
    (h : a.objId = b.objId) : a = b :=
  List.inj_on_of_nodup_map hnd ha hb h

theorem mem_g_list_remove {l : List QrtrServiceInfo} {e : QrtrServiceInfo}
    (hnd : (l.map (fun x => x.objId)).Nodup) (hel : e ∈ l)
    (x : QrtrServiceInfo) :
    x ∈ g_list_remove l e ↔ (x ∈ l ∧ x.objId ≠ e.objId) := by
  induction l with
  | nil => simp at hel
  | cons y ys ih =>
      simp only [List.map_cons, List.nodup_cons] at hnd
      by_cases h : y.objId = e.objId
      · have hy : e = y := by
          rcases List.mem_cons.mp hel with rfl | hmem
          · rfl
          · exact absurd (h ▸ List.mem_map_of_mem (fun z => z.objId) hmem) hnd.1
        subst hy
        simp only [g_list_remove, if_pos h, List.mem_cons]
        constructor
        · intro hx
          refine ⟨Or.inr hx, ?_⟩
          intro hxe
          exact hnd.1 (hxe ▸ List.mem_map_of_mem (fun z => z.objId) hx)
        · rintro ⟨rfl | hx, hne⟩
          · exact absurd rfl hne
          · exact hx
      · have hel' : e ∈ ys := by
          rcases List.mem_cons.mp hel with rfl | hmem
          · exact absurd rfl h
          · exact hmem
        simp only [g_list_remove, if_neg h, List.mem_cons, ih hnd.2 hel']
        constructor
        · rintro (rfl | ⟨hx, hne⟩)
          · exact ⟨Or.inl rfl, h⟩
          · exact ⟨Or.inr hx, hne⟩
        · rintro ⟨rfl | hx, hne⟩
          · exact Or.inl rfl
          · exact Or.inr ⟨hx, hne⟩

theorem add_service_list (node : NodeState) (s p v i : Nat) :
    (qrtr_node_add_service_info node s p v i).service_list
      = node.service_list ++ [mkInfo node s p v i] := rfl

theorem add_service_index (node : NodeState) (s p v i : Nat) :
    (qrtr_node_add_service_info node s p v i).service_index
      = service_index_add_info node.service_index (wrap32 s) (mkInfo node s p v i) := rfl

theorem add_port_index (node : NodeState) (s p v i : Nat) :
    (qrtr_node_add_service_info node s p v i).port_index
      = htInsert (wrap32 p) (mkInfo node s p v i) node.port_index := rfl

theorem add_next_id (node : NodeState) (s p v i : Nat) :
    (qrtr_node_add_service_info node s p v i).next_id = node.next_id + 1 := rfl

theorem remove_of_none {node : NodeState} {s p v i : Nat}
    (h : htLookup (wrap32 p) node.port_index = none) :
    qrtr_node_remove_service_info node s p v i = node := by
  unfold qrtr_node_remove_service_info
  rw [h]

theorem remove_of_some {node : NodeState} {s p v i : Nat} {info : QrtrServiceInfo}
    (h : htLookup (wrap32 p) node.port_index = some info) :
    qrtr_node_remove_service_info node s p v i =
      { service_list := g_list_remove node.service_list info
        service_index := service_index_remove_info node.service_index (wrap32 s) info
        port_index := htRemove (wrap32 p) node.port_index
        next_id := node.next_id } := by
  unfold qrtr_node_remove_service_info
  rw [h]

theorem service_index_add_info_none {idx : List (Nat × List QrtrServiceInfo)}
    {s : Nat} {info : QrtrServiceInfo} (h : htLookup s idx = none) :
    service_index_add_info idx s info
      = htInsert s (g_list_insert_sorted [] info) idx := by
  unfold service_index_add_info
  rw [h]

theorem service_index_add_info_some {idx : List (Nat × List QrtrServiceInfo)}
    {s : Nat} {info : QrtrServiceInfo} {l : List QrtrServiceInfo}
    (h : htLookup s idx = some l) :
    service_index_add_info idx s info
      = htInsert s (g_list_insert_sorted l info) idx := by
  unfold service_index_add_info
  rw [h]

theorem service_index_remove_info_none {idx : List (Nat × List QrtrServiceInfo)}
    {s : Nat} {info : QrtrServiceInfo} (h : htLookup s idx = none) :
    service_index_remove_info idx s info = idx := by
  unfold service_index_remove_info
  rw [h]

theorem service_index_remove_info_some {idx : List (Nat × List QrtrServiceInfo)}
    {s : Nat} {info : QrtrServiceInfo} {l : List QrtrServiceInfo}
    (h : htLookup s idx = some l) :
    service_index_remove_info idx s info
      = htInsert s (g_list_remove l info) idx := by
  unfold service_index_remove_info
  rw [h]

theorem nodeInv_empty : NodeInv emptyNode := by
  constructor <;> simp [emptyNode, htLookup]

theorem nodeInv_add {n : NodeState} (inv : NodeInv n) {s p v i : Nat}
    (hwf : wfAdd n p v) :
    NodeInv (qrtr_node_add_service_info n s p v i) := by
  obtain ⟨hfreshL, hv⟩ := hwf
  set info := mkInfo n s p v i with hinfo
  have hip : info.port = wrap32 p := rfl
  have his : info.service = wrap32 s := rfl
  have hiv : info.version = wrap32 v := rfl
  have hii : info.objId = n.next_id := rfl
  have hfresh : ∀ e ∈ n.service_list, e.port ≠ wrap32 p := by
    intro e he hep
    have : htLookup (wrap32 p) n.port_index = some e := (inv.port_iff _ e).mpr ⟨he, hep⟩
    rw [hfreshL] at this
    exact Option.noConfusion this
  have hmemflat : ∀ e, e ∈ (qrtr_node_add_service_info n s p v i).service_list
      ↔ e ∈ n.service_list ∨ e = info := by
    intro e
    rw [add_service_list, ← hinfo]
    simp
  constructor
  case flat_ids =>
    rw [add_service_list, ← hinfo, List.map_append]
    rw [List.nodup_append]
    refine ⟨inv.flat_ids, by simp, ?_⟩
    intro a ha
    simp only [List.mem_map] at ha
    obtain ⟨e, he, rfl⟩ := ha
    simp only [List.map_cons, List.map_nil, List.mem_singleton]
    intro hcon
    have := inv.flat_ids_lt e he
    rw [hcon, hii] at this
    exact Nat.lt_irrefl _ this
  case flat_ids_lt =>
    intro e he
    rw [add_next_id]
    rcases (hmemflat e).mp he with h | rfl
    · exact Nat.lt_succ_of_lt (inv.flat_ids_lt e h)
    · rw [hii]; exact Nat.lt_succ_self _
  case flat_ports =>
    rw [add_service_list, ← hinfo, List.map_append]
    rw [List.nodup_append]
    refine ⟨inv.flat_ports, by simp, ?_⟩
    intro a ha
    simp only [List.mem_map] at ha
    obtain ⟨e, he, rfl⟩ := ha
    simp only [List.map_cons, List.map_nil, List.mem_singleton]
    rw [hip]
    exact hfresh e he
  case flat_bounds =>
    intro e he
    rcases (hmemflat e).mp he with h | rfl
    · exact inv.flat_bounds e h
    · refine ⟨?_, ?_, ?_⟩
      · rw [hiv]; exact hv
      · rw [hip]; exact Nat.mod_lt _ (by norm_num)
      · rw [his]; exact Nat.mod_lt _ (by norm_num)
  case port_iff =>
    intro q e
    rw [add_port_index, ← hinfo]
    by_cases hq : q = wrap32 p
    · subst hq
      rw [htLookup_htInsert_self]
      constructor
      · intro h
        have he : e = info := by
          injection h with h'
          exact h'.symm
        subst he
        exact ⟨(hmemflat info).mpr (Or.inr rfl), hip⟩
      · rintro ⟨he, hep⟩
        rcases (hmemflat e).mp he with h | rfl
        · exact absurd hep (hfresh e h)
        · rfl
    · rw [htLookup_htInsert_ne _ _ hq]
      rw [inv.port_iff q e]
      constructor
      · rintro ⟨he, hep⟩
        exact ⟨(hmemflat e).mpr (Or.inl he), hep⟩
      · rintro ⟨he, hep⟩
        rcases (hmemflat e).mp he with h | rfl
        · exact ⟨h, hep⟩
        · rw [hip] at hep
          exact absurd hep.symm hq
  case svc_keys =>
    rw [add_service_index, ← hinfo]
    rcases hidx : htLookup (wrap32 s) n.service_index with _ | l
    · rw [service_index_add_info_none hidx]
      exact htInsert_keys_nodup inv.svc_keys _ _
    · rw [service_index_add_info_some hidx]
      exact htInsert_keys_nodup inv.svc_keys _ _
  case svc_iff =>
    intro s0 e
    rw [add_service_index, ← hinfo]
    by_cases hs0 : s0 = wrap32 s
    · subst hs0
      rcases hidx : htLookup (wrap32 s) n.service_index with _ | base
      · rw [service_index_add_info_none hidx]
        constructor
        · rintro ⟨l0, hl0, hel0⟩
          rw [htLookup_htInsert_self] at hl0
          injection hl0 with hl0
          subst hl0
          simp only [g_list_insert_sorted, List.mem_singleton] at hel0
          subst hel0
          exact ⟨(hmemflat info).mpr (Or.inr rfl), his⟩
        · rintro ⟨he, hes⟩
          refine ⟨g_list_insert_sorted [] info, htLookup_htInsert_self _ _ _, ?_⟩
          rcases (hmemflat e).mp he with h | rfl
          · exfalso
            have hh : ∃ l, htLookup (wrap32 s) n.service_index = some l ∧ e ∈ l :=
              (inv.svc_iff _ e).mpr ⟨h, hes⟩
            obtain ⟨l, hl, _⟩ := hh
            rw [hidx] at hl
            exact Option.noConfusion hl
          · simp [g_list_insert_sorted]
      · rw [service_index_add_info_some hidx]
        constructor
        · rintro ⟨l0, hl0, hel0⟩
          rw [htLookup_htInsert_self] at hl0
          injection hl0 with hl0
          subst hl0
          rcases mem_g_list_insert_sorted.mp hel0 with rfl | hbase
          · exact ⟨(hmemflat info).mpr (Or.inr rfl), his⟩
          · have hh : e ∈ n.service_list ∧ e.service = wrap32 s :=
              (inv.svc_iff _ e).mp ⟨base, hidx, hbase⟩
            exact ⟨(hmemflat e).mpr (Or.inl hh.1), hh.2⟩
        · rintro ⟨he, hes⟩
          refine ⟨g_list_insert_sorted base info, htLookup_htInsert_self _ _ _, ?_⟩
          rcases (hmemflat e).mp he with h | rfl
          · have hh : ∃ l, htLookup (wrap32 s) n.service_index = some l ∧ e ∈ l :=
              (inv.svc_iff _ e).mpr ⟨h, hes⟩
            obtain ⟨l, hl, hmem⟩ := hh
            rw [hidx] at hl
            injection hl with hl
            subst hl
            exact mem_g_list_insert_sorted.mpr (Or.inr hmem)
          · exact mem_g_list_insert_sorted.mpr (Or.inl rfl)
    · have hlk : htLookup s0 (service_index_add_info n.service_index (wrap32 s) info)
          = htLookup s0 n.service_index := by
        rcases hidx : htLookup (wrap32 s) n.service_index with _ | base
        · rw [service_index_add_info_none hidx]
          exact htLookup_htInsert_ne _ _ hs0
        · rw [service_index_add_info_some hidx]
          exact htLookup_htInsert_ne _ _ hs0
      rw [hlk]
      rw [inv.svc_iff s0 e]
      constructor
      · rintro ⟨he, hes⟩
        exact ⟨(hmemflat e).mpr (Or.inl he), hes⟩
      · rintro ⟨he, hes⟩
        rcases (hmemflat e).mp he with h | rfl
        · exact ⟨h, hes⟩
        · rw [his] at hes
          exact absurd hes.symm hs0
  case svc_ids =>
    intro s0 l0
    rw [add_service_index, ← hinfo]
    by_cases hs0 : s0 = wrap32 s
    · subst hs0
      rcases hidx : htLookup (wrap32 s) n.service_index with _ | base
      · rw [service_index_add_info_none hidx]
        intro hl0
        rw [htLookup_htInsert_self] at hl0
        injection hl0 with hl0
        subst hl0
        simp [g_list_insert_sorted]
      · rw [service_index_add_info_some hidx]
        intro hl0
        rw [htLookup_htInsert_self] at hl0
        injection hl0 with hl0
        subst hl0
        have hperm := (g_list_insert_sorted_perm base info).map (fun e => e.objId)
        rw [List.Perm.nodup_iff hperm]
        simp only [List.map_cons, List.nodup_cons]
        refine ⟨?_, inv.svc_ids _ base hidx⟩
        intro hcon
        simp only [List.mem_map] at hcon
        obtain ⟨x, hx, hxid⟩ := hcon
        have hxf : x ∈ n.service_list ∧ x.service = wrap32 s :=
          (inv.svc_iff _ x).mp ⟨base, hidx, hx⟩
        have hlt := inv.flat_ids_lt x hxf.1
        rw [hxid, hii] at hlt
        exact Nat.lt_irrefl _ hlt
    · have hlk : htLookup s0 (service_index_add_info n.service_index (wrap32 s) info)
          = htLookup s0 n.service_index := by
        rcases hidx : htLookup (wrap32 s) n.service_index with _ | base
        · rw [service_index_add_info_none hidx]
          exact htLookup_htInsert_ne _ _ hs0
        · rw [service_index_add_info_some hidx]
          exact htLookup_htInsert_ne _ _ hs0
      rw [hlk]
      exact inv.svc_ids s0 l0
  case svc_sorted =>
    intro s0 l0
    rw [add_service_index, ← hinfo]
    by_cases hs0 : s0 = wrap32 s
    · subst hs0
      rcases hidx : htLookup (wrap32 s) n.service_index with _ | base
      · rw [service_index_add_info_none hidx]
        intro hl0
        rw [htLookup_htInsert_self] at hl0
        injection hl0 with hl0
        subst hl0
        simp [g_list_insert_sorted]
      · rw [service_index_add_info_some hidx]
        intro hl0
        rw [htLookup_htInsert_self] at hl0
        injection hl0 with hl0
        subst hl0
        refine g_list_insert_sorted_pairwise (inv.svc_sorted _ base hidx) ?_ ?_
        · intro x hx
          have hxf : x ∈ n.service_list ∧ x.service = wrap32 s :=
            (inv.svc_iff _ x).mp ⟨base, hidx, hx⟩
          refine ⟨(inv.flat_bounds x hxf.1).1, ?_⟩
          rw [hii]
          exact inv.flat_ids_lt x hxf.1
        · rw [hiv]; exact hv
    · have hlk : htLookup s0 (service_index_add_info n.service_index (wrap32 s) info)
          = htLookup s0 n.service_index := by
        rcases hidx : htLookup (wrap32 s) n.service_index with _ | base
        · rw [service_index_add_info_none hidx]
          exact htLookup_htInsert_ne _ _ hs0
        · rw [service_index_add_info_some hidx]
          exact htLookup_htInsert_ne _ _ hs0
      rw [hlk]
      exact inv.svc_sorted s0 l0

theorem nodeInv_remove {n : NodeState} (inv : NodeInv n) {s p v i : Nat}
    (hwf : wfRemove n s p) :
    NodeInv (qrtr_node_remove_service_info n s p v i) := by
  rcases h : htLookup (wrap32 p) n.port_index with _ | e0
  · rw [remove_of_none h]
    exact inv
  · unfold wfRemove at hwf
    rw [h] at hwf
    have he0 : e0 ∈ n.service_list ∧ e0.port = wrap32 p := (inv.port_iff _ e0).mp h
    have hmem : ∀ x, x ∈ g_list_remove n.service_list e0
        ↔ (x ∈ n.service_list ∧ x.objId ≠ e0.objId) :=
      mem_g_list_remove inv.flat_ids he0.1
    have hsub := g_list_remove_sublist n.service_list e0
    have hl0 : ∃ l0, htLookup (wrap32 s) n.service_index = some l0 ∧ e0 ∈ l0 :=
      (inv.svc_iff _ e0).mpr ⟨he0.1, hwf⟩
    obtain ⟨l0, hl0lk, hl0mem⟩ := hl0
    have hidx' : service_index_remove_info n.service_index (wrap32 s) e0
        = htInsert (wrap32 s) (g_list_remove l0 e0) n.service_index :=
      service_index_remove_info_some hl0lk
    have hmeml0 : ∀ x, x ∈ g_list_remove l0 e0 ↔ (x ∈ l0 ∧ x.objId ≠ e0.objId) :=
      mem_g_list_remove (inv.svc_ids _ l0 hl0lk) hl0mem
    rw [remove_of_some h]
    constructor
    case flat_ids => exact (hsub.map (fun e => e.objId)).nodup inv.flat_ids
    case flat_ids_lt =>
      intro e he
      exact inv.flat_ids_lt e (hsub.mem he)
    case flat_ports => exact (hsub.map (fun e => e.port)).nodup inv.flat_ports
    case flat_bounds =>
      intro e he
      exact inv.flat_bounds e (hsub.mem he)
    case port_iff =>
      intro q e
      dsimp only
      by_cases hq : q = wrap32 p
      · subst hq
        rw [htLookup_htRemove_self]
        constructor
        · intro hc
          exact Option.noConfusion hc
        · rintro ⟨he, hep⟩
          have he' := (hmem e).mp he
          have : htLookup (wrap32 p) n.port_index = some e :=
            (inv.port_iff _ e).mpr ⟨he'.1, hep⟩
          rw [h] at this
          injection this with this
          exact (he'.2 ((congrArg (fun z => z.objId) this).symm)).elim
      · rw [htLookup_htRemove_ne _ hq]
        rw [inv.port_iff q e]
        constructor
        · rintro ⟨he, hep⟩
          refine ⟨(hmem e).mpr ⟨he, ?_⟩, hep⟩
          intro hid
          have : e = e0 := objId_inj inv.flat_ids he he0.1 hid
          subst this
          rw [he0.2] at hep
          exact hq hep.symm
        · rintro ⟨he, hep⟩
          exact ⟨((hmem e).mp he).1, hep⟩
    case svc_keys =>
      dsimp only
      rw [hidx']
      exact htInsert_keys_nodup inv.svc_keys _ _
    case svc_iff =>
      intro s0 e
      dsimp only
      rw [hidx']
      by_cases hs0 : s0 = wrap32 s
      · subst hs0
        constructor
        · rintro ⟨l1, hl1, hel1⟩
          rw [htLookup_htInsert_self] at hl1
          injection hl1 with hl1
          subst hl1
          have he' := (hmeml0 e).mp hel1
          have hef : e ∈ n.service_list ∧ e.service = wrap32 s :=
            (inv.svc_iff _ e).mp ⟨l0, hl0lk, he'.1⟩
          exact ⟨(hmem e).mpr ⟨hef.1, he'.2⟩, hef.2⟩
        · rintro ⟨he, hes⟩
          have he' := (hmem e).mp he
          refine ⟨g_list_remove l0 e0, htLookup_htInsert_self _ _ _, ?_⟩
          refine (hmeml0 e).mpr ⟨?_, he'.2⟩
          obtain ⟨l2, hl2, hel2⟩ := (inv.svc_iff _ e).mpr ⟨he'.1, hes⟩
          rw [hl0lk] at hl2
          injection hl2 with hl2
          subst hl2
          exact hel2
      · rw [htLookup_htInsert_ne _ _ hs0]
        rw [inv.svc_iff s0 e]
        constructor
        · rintro ⟨he, hes⟩
          refine ⟨(hmem e).mpr ⟨he, ?_⟩, hes⟩
          intro hid
          have : e = e0 := objId_inj inv.flat_ids he he0.1 hid
          subst this
          rw [hwf] at hes
          exact hs0 hes.symm
        · rintro ⟨he, hes⟩
          exact ⟨((hmem e).mp he).1, hes⟩
    case svc_ids =>
      intro s0 l1
      dsimp only
      rw [hidx']
      by_cases hs0 : s0 = wrap32 s
      · subst hs0
        intro hl1
        rw [htLookup_htInsert_self] at hl1
        injection hl1 with hl1
        subst hl1
        exact ((g_list_remove_sublist l0 e0).map (fun e => e.objId)).nodup
          (inv.svc_ids _ l0 hl0lk)
      · rw [htLookup_htInsert_ne _ _ hs0]
        exact inv.svc_ids s0 l1
    case svc_sorted =>
      intro s0 l1
      dsimp only
      rw [hidx']
      by_cases hs0 : s0 = wrap32 s
      · subst hs0
        intro hl1
        rw [htLookup_htInsert_self] at hl1
        injection hl1 with hl1
        subst hl1
        exact (inv.svc_sorted _ l0 hl0lk).sublist (g_list_remove_sublist l0 e0)
      · rw [htLookup_htInsert_ne _ _ hs0]
        exact inv.svc_sorted s0 l1

theorem nodeInv_applyOp {n : NodeState} (inv : NodeInv n) {op : NodeOp}
    (hwf : wfOp n op) : NodeInv (applyOp n op) := by
  cases op with
  | add s p v i =>
      show NodeInv (qrtr_node_add_service_info n s p v i)
      exact nodeInv_add inv hwf
  | remove s p v i =>
      show NodeInv (qrtr_node_remove_service_info n s p v i)
      exact nodeInv_remove inv hwf

theorem nodeInv_runOps_aux {n : NodeState} (inv : NodeInv n) :
    ∀ ops : List NodeOp, wfOps n ops → NodeInv (ops.foldl applyOp n) := by
  intro ops
  induction ops generalizing n with
  | nil => intro _; exact inv
  | cons op rest ih =>
      intro hwf
      exact ih (nodeInv_applyOp inv hwf.1) hwf.2

theorem nodeInv_runOps {ops : List NodeOp} (hwf : wfOps emptyNode ops) :
    NodeInv (runOps ops) :=
  nodeInv_runOps_aux nodeInv_empty ops hwf

/-! ### Lookup unfolding helpers -/

theorem htLookup_some_mem {α : Type} {k : Nat} {v : α} {l : List (Nat × α)}
    (h : htLookup k l = some v) : (k, v) ∈ l := by
  induction l with
  | nil => exact Option.noConfusion h
  | cons kv rest ih =>
      obtain ⟨k', v'⟩ := kv
      by_cases hk : k = k'
      · subst hk
        have hv : v' = v := by simpa [htLookup] using h
        subst hv
        exact List.mem_cons_self _ _
      · simp only [htLookup, if_neg hk] at h
        exact List.mem_cons_of_mem _ (ih h)

theorem lookup_port_eq {n : NodeState} {s : Nat} {l : List QrtrServiceInfo}
    {b : QrtrServiceInfo}
    (hlk : htLookup (wrap32 s) n.service_index = some l)
    (hb : l.getLast? = some b) :
    qrtr_node_lookup_port n s = some (toInt32 b.port) := by
  unfold qrtr_node_lookup_port
  rw [hlk]
  simp [hb]

theorem lookup_service_eq {n : NodeState} {p : Nat} {e : QrtrServiceInfo}
    (h : htLookup (wrap32 p) n.port_index = some e) :
    qrtr_node_lookup_service n p = toInt32 e.service := by
  unfold qrtr_node_lookup_service
  rw [h]

theorem toInt32_neg_of_high {x : Nat} (h1 : 2147483648 ≤ x) (h2 : x < 4294967296) :
    toInt32 x < 0 := by
  unfold toInt32
  split <;> omega

theorem toInt32_max32 : toInt32 4294967295 = -1 := by decide

/-! ### Claim C1 -/

/-- Helper: the reachable-state invariant implies the index-consistency
property as the spec words it. -/
theorem nodeInv_implies_specIndexConsistent {n : NodeState} (inv : NodeInv n) :
    specIndexConsistent n := by
  refine ⟨?_, ?_, ?_, ?_, ?_⟩
  · intro q hq
    rcases hlk : htLookup q n.port_index with _ | e
    · rw [htLookup_eq_none_iff] at hlk
      exact absurd hq hlk
    · have := (inv.port_iff q e).mp hlk
      exact ⟨e, this.1, this.2⟩
  · intro e he
    have : htLookup e.port n.port_index = some e := (inv.port_iff _ e).mpr ⟨he, rfl⟩
    exact htLookup_mem_keys this
  · rintro ⟨s0, l0⟩ hpr x hx
    have hlk : htLookup s0 n.service_index = some l0 :=
      (mem_iff_htLookup_of_keys_nodup inv.svc_keys s0 l0).mp hpr
    have hxf := (inv.svc_iff s0 x).mp ⟨l0, hlk, hx⟩
    exact ⟨x, hxf.1, rfl⟩
  · intro e he
    obtain ⟨l0, hlk, hel⟩ := (inv.svc_iff e.service e).mpr ⟨he, rfl⟩
    exact ⟨(e.service, l0), htLookup_some_mem hlk, e, hel, rfl⟩
  · rintro ⟨s0, l0⟩ hpr
    have hlk : htLookup s0 n.service_index = some l0 :=
      (mem_iff_htLookup_of_keys_nodup inv.svc_keys s0 l0).mp hpr
    exact (inv.svc_sorted s0 l0 hlk).imp entryLt_version_le

/-- C1, counterexample: a remove whose service argument (2) differs from
the service stored for the port (1) leaves the freed entry dangling in
the service index while the flat list and port index drop it, so the
spec's index-consistency property fails on a state reachable by add and
remove calls. -/
theorem C1_index_consistency_counterexample :
    ¬ specIndexConsistent
        (runOps [NodeOp.add 1 1 0 0, NodeOp.remove 2 1 0 0]) := by
  decide

/-- C1 (amended): for every node state reachable by sequences of
`qrtr_node_add_service_info` and `qrtr_node_remove_service_info` calls
in which every add uses a port not currently registered and a version
below `2^31`, and every remove passes the service stored for its port,
the key set of the port index equals the set of ports of the flat list,
the union of the service-index lists covers exactly the flat list's
ports, and every per-service list is ascending by version. -/
theorem C1_index_consistency (ops : List NodeOp)
    (hwf : wfOps emptyNode ops) : specIndexConsistent (runOps ops) :=
  nodeInv_implies_specIndexConsistent (nodeInv_runOps hwf)

/-- Witness for C1 at a concrete call sequence. -/
theorem C1_index_consistency_witness :
    wfOps emptyNode [NodeOp.add 1 1 0 0, NodeOp.add 1 2 3 0, NodeOp.remove 1 1 0 0] ∧
    specIndexConsistent
      (runOps [NodeOp.add 1 1 0 0, NodeOp.add 1 2 3 0, NodeOp.remove 1 1 0 0]) :=
  ⟨by decide, C1_index_consistency _ (by decide)⟩

/-! ### Claim C2 -/

/-- C2, counterexample: two entries for service 5 with the same version
(ports 1 then 2).  GLib's `g_list_insert_sorted` places an equal-keyed
new element *before* the existing ones, so `qrtr_node_lookup_port`
returns the port of the first-inserted entry (1), not of the
last-inserted one (2) as the claim states. -/
theorem C2_tie_break_counterexample :
    qrtr_node_lookup_port (runOps [NodeOp.add 5 1 1 0, NodeOp.add 5 2 1 0]) 5
        = some 1 ∧
    qrtr_node_lookup_port (runOps [NodeOp.add 5 1 1 0, NodeOp.add 5 2 1 0]) 5
        ≠ some 2 := by
  decide

/-- C2 (amended): on every node state reachable by well-formed calls
(fresh ports, versions below `2^31`, matching service on removes) that
contains an entry for service `s`, `qrtr_node_lookup_port` returns the
port of an entry for `s` of maximal version, and among entries sharing
that maximal version the one with the least allocation id — i.e. the
*first*-inserted one — wins. -/
theorem C2_lookup_port_highest_version (ops : List NodeOp) (s : Nat)
    (hwf : wfOps emptyNode ops)
    (hex : ∃ e ∈ (runOps ops).service_list, e.service = wrap32 s) :
    ∃ b ∈ (runOps ops).service_list, b.service = wrap32 s ∧
      qrtr_node_lookup_port (runOps ops) s = some (toInt32 b.port) ∧
      ∀ e ∈ (runOps ops).service_list, e.service = wrap32 s →
        e.version ≤ b.version ∧ (e.version = b.version → b.objId ≤ e.objId) := by
  have inv := nodeInv_runOps hwf
  obtain ⟨e, he, hes⟩ := hex
  obtain ⟨l, hlk, hel⟩ := (inv.svc_iff _ e).mpr ⟨he, hes⟩
  rcases List.eq_nil_or_concat l with rfl | ⟨L, b, rfl⟩
  · exact absurd hel (List.not_mem_nil e)
  · rw [List.concat_eq_append] at hlk hel
    have hbmem : b ∈ L ++ [b] := by simp
    have hbf := (inv.svc_iff _ b).mp ⟨L ++ [b], hlk, hbmem⟩
    have hsorted := inv.svc_sorted _ _ hlk
    have hcross := (List.pairwise_append.mp hsorted).2.2
    refine ⟨b, hbf.1, hbf.2, lookup_port_eq hlk (List.getLast?_concat L), ?_⟩
    intro x hx hxs
    obtain ⟨l2, hl2, hxl2⟩ := (inv.svc_iff _ x).mpr ⟨hx, hxs⟩
    rw [hlk] at hl2
    injection hl2 with hl2
    subst hl2
    rcases List.mem_append.mp hxl2 with hxL | hxb
    · have hlt := hcross x hxL b (List.mem_singleton.mpr rfl)
      rcases hlt with hv | ⟨hv, hid⟩
      · exact ⟨Nat.le_of_lt hv, fun heq => absurd (heq ▸ hv) (Nat.lt_irrefl _)⟩
      · exact ⟨Nat.le_of_eq hv, fun _ => Nat.le_of_lt hid⟩
    · have : x = b := List.mem_singleton.mp hxb
      subst this
      exact ⟨Nat.le_refl _, fun _ => Nat.le_refl _⟩

/-- Witness for C2 at a concrete call sequence (service 5, versions 1
then 2: the port of the version-2 entry is returned). -/
theorem C2_lookup_port_witness :
    wfOps emptyNode [NodeOp.add 5 1 1 0, NodeOp.add 5 2 2 0] ∧
    (∃ e ∈ (runOps [NodeOp.add 5 1 1 0, NodeOp.add 5 2 2 0]).service_list,
        e.service = wrap32 5) ∧
    (∃ b ∈ (runOps [NodeOp.add 5 1 1 0, NodeOp.add 5 2 2 0]).service_list,
        b.service = wrap32 5 ∧
        qrtr_node_lookup_port (runOps [NodeOp.add 5 1 1 0, NodeOp.add 5 2 2 0]) 5
          = some (toInt32 b.port) ∧
        ∀ e ∈ (runOps [NodeOp.add 5 1 1 0, NodeOp.add 5 2 2 0]).service_list,
          e.service = wrap32 5 →
          e.version ≤ b.version ∧ (e.version = b.version → b.objId ≤ e.objId)) :=
  ⟨by decide, by decide,
    C2_lookup_port_highest_version _ 5 (by decide) (by decide)⟩

/-! ### Claim C3 -/

/-- C3: evaluation of the code at the failing input.  A node holds
service 1 at port 1 and service 2 at port 2; removing port 1 leaves an
empty `ListHolder` for service 1 in the service index, and the
subsequent `qrtr_node_lookup_port (service 1)` evaluates
`g_list_last (NULL)->data`, a NULL dereference (`none` in the model)
instead of the absent sentinel `-1` the spec requires.  The port-index
lookup path is unaffected: `qrtr_node_lookup_service` for the removed
port correctly reports absence. -/
theorem C3_lookup_crash_eval :
    qrtr_node_lookup_port
        (runOps [NodeOp.add 1 1 0 0, NodeOp.add 2 2 0 0, NodeOp.remove 1 1 0 0]) 1
      = none ∧
    qrtr_node_lookup_service
        (runOps [NodeOp.add 1 1 0 0, NodeOp.add 2 2 0 0, NodeOp.remove 1 1 0 0]) 1
      = -1 := by
  decide

/-! ### Claim C8 -/

/-- C8, counterexample: port 1 holds an entry with service 1; calling
`qrtr_node_remove_service_info` for port 1 but service 2 takes the
success branch (the port lookup finds the entry), removes it from the
flat list and port index, yet leaves it inside the service index, so
the remove does *not* remove the entry from all three structures. -/
theorem C8_remove_counterexample :
    (htLookup (wrap32 1)
        (runOps [NodeOp.add 1 1 0 0]).port_index).isSome = true ∧
    ¬ (∀ pr ∈ (qrtr_node_remove_service_info
          (runOps [NodeOp.add 1 1 0 0]) 2 1 0 0).service_index,
        ∀ e ∈ pr.2,
          e ∈ (qrtr_node_remove_service_info
            (runOps [NodeOp.add 1 1 0 0]) 2 1 0 0).service_list) := by
  decide

/-- C8 (amended): a remove for a port with no entry returns without
touching any of the three structures (full atomicity on error, for
*every* node state); and on reachable states a remove for a registered
port whose service argument matches the stored entry's service removes
that entry from the flat list, the port index and the service index. -/
theorem C8_remove_semantics :
    (∀ (n : NodeState) (s p v i : Nat),
        htLookup (wrap32 p) n.port_index = none →
        qrtr_node_remove_service_info n s p v i = n) ∧
    (∀ (ops : List NodeOp) (s p v i : Nat) (e : QrtrServiceInfo),
        wfOps emptyNode ops →
        htLookup (wrap32 p) (runOps ops).port_index = some e →
        e.service = wrap32 s →
        e ∉ (qrtr_node_remove_service_info (runOps ops) s p v i).service_list ∧
        htLookup (wrap32 p)
          (qrtr_node_remove_service_info (runOps ops) s p v i).port_index = none ∧
        ∀ l, htLookup (wrap32 s)
            (qrtr_node_remove_service_info (runOps ops) s p v i).service_index
              = some l → e ∉ l) := by
  constructor
  · intro n s p v i h
    exact remove_of_none h
  · intro ops s p v i e hwf h hes
    have inv := nodeInv_runOps hwf
    have he : e ∈ (runOps ops).service_list ∧ e.port = wrap32 p :=
      (inv.port_iff _ e).mp h
    obtain ⟨l0, hl0lk, hl0mem⟩ := (inv.svc_iff _ e).mpr ⟨he.1, hes⟩
    rw [remove_of_some h]
    refine ⟨?_, ?_, ?_⟩
    · intro hc
      have := (mem_g_list_remove inv.flat_ids he.1 e).mp hc
      exact this.2 rfl
    · exact htLookup_htRemove_self _ _
    · intro l hl
      dsimp only at hl
      rw [service_index_remove_info_some hl0lk, htLookup_htInsert_self] at hl
      injection hl with hl
      subst hl
      intro hc
      have := (mem_g_list_remove (inv.svc_ids _ l0 hl0lk) hl0mem e).mp hc
      exact this.2 rfl

/-- Witness for C8: the no-op half at a port with no entry, and the
success half at a concrete reachable state. -/
theorem C8_remove_semantics_witness :
    (htLookup (wrap32 9) emptyNode.port_index = none ∧
      qrtr_node_remove_service_info emptyNode 0 9 0 0 = emptyNode) ∧
    (wfOps emptyNode [NodeOp.add 7 3 0 0] ∧
      htLookup (wrap32 3) (runOps [NodeOp.add 7 3 0 0]).port_index
        = some ⟨7, 3, 0, 0, 0⟩ ∧
      (⟨7, 3, 0, 0, 0⟩ : QrtrServiceInfo).service = wrap32 7 ∧
      (⟨7, 3, 0, 0, 0⟩ : QrtrServiceInfo)
          ∉ (qrtr_node_remove_service_info (runOps [NodeOp.add 7 3 0 0]) 7 3 0 0).service_list ∧
      htLookup (wrap32 3)
        (qrtr_node_remove_service_info (runOps [NodeOp.add 7 3 0 0]) 7 3 0 0).port_index
          = none) :=
  ⟨⟨by decide, C8_remove_semantics.1 emptyNode 0 9 0 0 (by decide)⟩,
    by
      have h := C8_remove_semantics.2 [NodeOp.add 7 3 0 0] 7 3 0 0
        ⟨7, 3, 0, 0, 0⟩ (by decide) (by decide) (by decide)
      exact ⟨by decide, by decide, by decide, h.1, h.2.1⟩⟩

/-! ### Claim C9 -/

/-- C9: both lookups signal absence with the `gint32` sentinel `-1`
rather than a distinct option value.  Consequently a stored value with
the high bit set comes back negative, and an entry whose service id is
`0xFFFFFFFF` is indistinguishable from no entry at all: the lookup
returns `-1` exactly as on a node that has no entry at that port. -/
theorem C9_sentinel_conflation :
    (∀ s, qrtr_node_lookup_port emptyNode s = some (-1)) ∧
    (∀ p, qrtr_node_lookup_service emptyNode p = -1) ∧
    (∀ (n : NodeState) (p : Nat) (e : QrtrServiceInfo),
        htLookup (wrap32 p) n.port_index = some e →
        qrtr_node_lookup_service n p = toInt32 e.service ∧
        (2147483648 ≤ e.service → e.service < 4294967296 →
          qrtr_node_lookup_service n p < 0) ∧
        (e.service = 4294967295 →
          qrtr_node_lookup_service n p = -1 ∧
          qrtr_node_lookup_service emptyNode p = -1)) ∧
    (∀ (n : NodeState) (s : Nat) (l : List QrtrServiceInfo) (b : QrtrServiceInfo),
        htLookup (wrap32 s) n.service_index = some l → l.getLast? = some b →
        2147483648 ≤ b.port → b.port < 4294967296 →
        qrtr_node_lookup_port n s = some (toInt32 b.port) ∧ toInt32 b.port < 0) := by
  refine ⟨fun s => rfl, fun p => rfl, ?_, ?_⟩
  · intro n p e h
    have heq := lookup_service_eq h
    refine ⟨heq, ?_, ?_⟩
    · intro h1 h2
      rw [heq]
      exact toInt32_neg_of_high h1 h2
    · intro hmax
      rw [heq, hmax, toInt32_max32]
      exact ⟨rfl, rfl⟩
  · intro n s l b hlk hb h1 h2
    exact ⟨lookup_port_eq hlk hb, toInt32_neg_of_high h1 h2⟩

/-- Witness for C9: a node whose only entry at port 8 carries service id
`0xFFFFFFFF`; the lookup returns `-1`, identical to the absent case. -/
theorem C9_sentinel_conflation_witness :
    htLookup (wrap32 8)
        (runOps [NodeOp.add 4294967295 8 0 0]).port_index
        = some ⟨4294967295, 8, 0, 0, 0⟩ ∧
    qrtr_node_lookup_service (runOps [NodeOp.add 4294967295 8 0 0]) 8 = -1 ∧
    qrtr_node_lookup_service emptyNode 8 = -1 :=
  ⟨by decide,
    by
      have h := (C9_sentinel_conflation.2.2.1
        (runOps [NodeOp.add 4294967295 8 0 0]) 8 ⟨4294967295, 8, 0, 0, 0⟩
        (by decide)).2.2 (by decide)
      exact ⟨h.1, h.2⟩⟩

/-! ### Bus-level helpers -/

theorem wrap32_wrap32 (x : Nat) : wrap32 (wrap32 x) = wrap32 x := by
  unfold wrap32
  omega

theorem add_service_info_of_none {st : BusState} {node_id port service v i : Nat}
    (h : htLookup node_id st = none) :
    add_service_info st node_id port service v i =
      (htInsert node_id (qrtr_node_add_service_info emptyNode service port v i) st,
        [BusEvent.nodeAdded node_id, BusEvent.serviceAdded node_id service]) := by
  unfold add_service_info
  rw [h]

theorem add_service_info_of_some {st : BusState} {node_id port service v i : Nat}
    {nd : NodeState} (h : htLookup node_id st = some nd) :
    add_service_info st node_id port service v i =
      (htInsert node_id (qrtr_node_add_service_info nd service port v i) st,
        [BusEvent.serviceAdded node_id service]) := by
  unfold add_service_info
  rw [h]

theorem remove_service_info_of_none {st : BusState} {node_id port service v i : Nat}
    (h : htLookup node_id st = none) :
    remove_service_info st node_id port service v i = (st, []) := by
  unfold remove_service_info
  rw [h]

theorem remove_service_info_of_some {st : BusState} {node_id port service v i : Nat}
    {nd : NodeState} (h : htLookup node_id st = some nd) :
    remove_service_info st node_id port service v i =
      if qrtr_node_has_services (qrtr_node_remove_service_info nd service port v i) then
        (htInsert node_id (qrtr_node_remove_service_info nd service port v i) st,
          [BusEvent.serviceRemoved node_id service])
      else
        (htRemove node_id st,
          [BusEvent.serviceRemoved node_id service, BusEvent.nodeRemoved node_id]) := by
  unfold remove_service_info
  rw [h]

theorem countEv_append (a b : List BusEvent) (ev : BusEvent) :
    countEv (a ++ b) ev = countEv a ev + countEv b ev := by
  induction a with
  | nil => simp [countEv]
  | cons x xs ih =>
      show (if x = ev then 1 else 0) + countEv (xs ++ b) ev
          = (if x = ev then 1 else 0) + countEv xs ev + countEv b ev
      rw [ih]
      omega

theorem entriesCount_of_none {st : BusState} {node : Nat} (s : Nat)
    (h : htLookup node st = none) : entriesCount st node s = 0 := by
  unfold entriesCount
  rw [h]

theorem entriesCount_of_some {st : BusState} {node : Nat} {nd : NodeState} (s : Nat)
    (h : htLookup node st = some nd) :
    entriesCount st node s
      = (nd.service_list.filter (fun e => e.service = s)).length := by
  unfold entriesCount
  rw [h]

theorem add_filter_length (nd : NodeState) (s p v i s0 : Nat) :
    ((qrtr_node_add_service_info nd s p v i).service_list.filter
        (fun e => e.service = s0)).length
      = (nd.service_list.filter (fun e => e.service = s0)).length
        + (if wrap32 s = s0 then 1 else 0) := by
  rw [add_service_list, List.filter_append, List.length_append]
  congr 1
  by_cases h : wrap32 s = s0
  · simp [mkInfo, h]
  · simp [mkInfo, h]

theorem g_list_remove_filter_length {l : List QrtrServiceInfo} {e0 : QrtrServiceInfo}
    (hnd : (l.map (fun e => e.objId)).Nodup) (he0 : e0 ∈ l)
    (pr : QrtrServiceInfo → Bool) :
    (l.filter pr).length
      = ((g_list_remove l e0).filter pr).length + (if pr e0 then 1 else 0) := by
  induction l with
  | nil => exact absurd he0 (List.not_mem_nil e0)
  | cons x xs ih =>
      simp only [List.map_cons, List.nodup_cons] at hnd
      by_cases h : x.objId = e0.objId
      · have hx : x = e0 := by
          rcases List.mem_cons.mp he0 with heq | hmem
          · exact heq.symm
          · exact absurd (h ▸ List.mem_map_of_mem (fun z => z.objId) hmem) hnd.1
        subst hx
        simp only [g_list_remove, if_pos rfl, List.filter_cons]
        by_cases hp : pr x
        · simp [hp]
        · simp [hp]
      · have hmem : e0 ∈ xs := by
          rcases List.mem_cons.mp he0 with heq | hm
          · exact absurd (congrArg (fun z => z.objId) heq.symm) h
          · exact hm
        simp only [g_list_remove, if_neg h, List.filter_cons]
        by_cases hp : pr x
        · simp only [hp, if_pos]
          simp only [List.length_cons]
          rw [ih hnd.2 hmem]
          omega
        · simp only [hp]
          simp only [Bool.false_eq_true, if_neg (fun hc : False => hc)]
          exact ih hnd.2 hmem

theorem busNodeOk_empty : BusNodeOk emptyNode := by
  refine ⟨by simp [emptyNode], by simp [emptyNode], ?_⟩
  intro p e h
  exact Option.noConfusion h

theorem busNodeOk_add {nd : NodeState} (h : BusNodeOk nd) (s p v i : Nat) :
    BusNodeOk (qrtr_node_add_service_info nd s p v i) := by
  obtain ⟨hids, hlt, hport⟩ := h
  have hobj : (mkInfo nd s p v i).objId = nd.next_id := rfl
  refine ⟨?_, ?_, ?_⟩
  · rw [add_service_list, List.map_append, List.nodup_append]
    refine ⟨hids, by simp, ?_⟩
    intro a ha
    simp only [List.mem_map] at ha
    obtain ⟨e, he, rfl⟩ := ha
    simp only [List.map_cons, List.map_nil, List.mem_singleton]
    intro hc
    have hl := hlt e he
    rw [hc, hobj] at hl
    exact Nat.lt_irrefl _ hl
  · intro e he
    rw [add_next_id]
    rw [add_service_list] at he
    rcases List.mem_append.mp he with hm | hm
    · exact Nat.lt_succ_of_lt (hlt e hm)
    · have : e = mkInfo nd s p v i := List.mem_singleton.mp hm
      subst this
      rw [hobj]
      exact Nat.lt_succ_self _
  · intro q e hq
    rw [add_port_index] at hq
    by_cases hqp : q = wrap32 p
    · subst hqp
      rw [htLookup_htInsert_self] at hq
      injection hq with hq
      subst hq
      refine ⟨?_, rfl⟩
      rw [add_service_list]
      exact List.mem_append.mpr (Or.inr (List.mem_singleton.mpr rfl))
    · rw [htLookup_htInsert_ne _ _ hqp] at hq
      have hold := hport _ _ hq
      refine ⟨?_, hold.2⟩
      rw [add_service_list]
      exact List.mem_append.mpr (Or.inl hold.1)

theorem busNodeOk_remove {nd : NodeState} (h : BusNodeOk nd) (s p v i : Nat) :
    BusNodeOk (qrtr_node_remove_service_info nd s p v i) := by
  rcases hlk : htLookup (wrap32 p) nd.port_index with _ | e0
  · rw [remove_of_none hlk]
    exact h
  · obtain ⟨hids, hlt, hport⟩ := h
    have he0 := hport _ _ hlk
    rw [remove_of_some hlk]
    refine ⟨?_, ?_, ?_⟩
    · exact ((g_list_remove_sublist _ _).map _).nodup hids
    · intro e he
      exact hlt e ((g_list_remove_sublist _ _).mem he)
    · intro q e hq
      dsimp only at hq ⊢
      by_cases hqp : q = wrap32 p
      · subst hqp
        rw [htLookup_htRemove_self] at hq
        exact Option.noConfusion hq
      · rw [htLookup_htRemove_ne _ hqp] at hq
        have hold := hport _ _ hq
        refine ⟨(mem_g_list_remove hids he0.1 e).mpr ⟨hold.1, ?_⟩, hold.2⟩
        intro hid
        have heq : e = e0 := objId_inj hids hold.1 he0.1 hid
        subst heq
        exact hqp (by rw [← hold.2, he0.2])

theorem entriesCount_htInsert_ne {st : BusState} {n0 n : Nat} {nd : NodeState}
    (s0 : Nat) (h : n0 ≠ n) :
    entriesCount (htInsert n nd st) n0 s0 = entriesCount st n0 s0 := by
  unfold entriesCount
  rw [htLookup_htInsert_ne _ _ h]

theorem entriesCount_htRemove_self {st : BusState} {n : Nat} (s0 : Nat) :
    entriesCount (htRemove n st) n s0 = 0 := by
  unfold entriesCount
  rw [htLookup_htRemove_self]

theorem entriesCount_htRemove_ne {st : BusState} {n0 n : Nat} (s0 : Nat)
    (h : n0 ≠ n) :
    entriesCount (htRemove n st) n0 s0 = entriesCount st n0 s0 := by
  unfold entriesCount
  rw [htLookup_htRemove_ne _ h]

/-- One packet preserves the bus bookkeeping and the added/removed/live
count equation, provided the packet is well formed for the current
state. -/
theorem bus_step {st : BusState} {pk : CtrlPacket}
    (hinv : BusInv st) (hwf : wfCtrl st pk) :
    BusInv (qrtr_ctrl_message_cb st pk).1 ∧
    ∀ n0 s0,
      countEv (qrtr_ctrl_message_cb st pk).2 (BusEvent.serviceAdded n0 s0)
          + entriesCount st n0 s0
        = countEv (qrtr_ctrl_message_cb st pk).2 (BusEvent.serviceRemoved n0 s0)
          + entriesCount (qrtr_ctrl_message_cb st pk).1 n0 s0 := by
  cases pk with
  | otherCmd => exact ⟨hinv, fun n0 s0 => by simp [qrtr_ctrl_message_cb, countEv]⟩
  | shortPacket => exact ⟨hinv, fun n0 s0 => by simp [qrtr_ctrl_message_cb, countEv]⟩
  | newServer service iw node port =>
      simp only [qrtr_ctrl_message_cb]
      rcases hlk : htLookup (wrap32 node) st with _ | nd
      · rw [add_service_info_of_none hlk]
        dsimp only
        constructor
        · intro m nd0 hm
          by_cases hmn : m = wrap32 node
          · subst hmn
            rw [htLookup_htInsert_self] at hm
            injection hm with hm
            subst hm
            exact busNodeOk_add busNodeOk_empty _ _ _ _
          · rw [htLookup_htInsert_ne _ _ hmn] at hm
            exact hinv m nd0 hm
        · intro n0 s0
          by_cases hn : n0 = wrap32 node
          · subst hn
            rw [entriesCount_of_none s0 hlk,
                entriesCount_of_some s0 (htLookup_htInsert_self _ _ _)]
            rw [add_filter_length, wrap32_wrap32]
            simp only [countEv, emptyNode]
            by_cases hs : wrap32 service = s0 <;>
              simp [hs] <;> omega
          · rw [entriesCount_htInsert_ne s0 hn]
            simp only [countEv]
            have hne : ¬ (wrap32 node = n0) := fun hc => hn hc.symm
            simp [hne]
      · rw [add_service_info_of_some hlk]
        dsimp only
        constructor
        · intro m nd0 hm
          by_cases hmn : m = wrap32 node
          · subst hmn
            rw [htLookup_htInsert_self] at hm
            injection hm with hm
            subst hm
            exact busNodeOk_add (hinv _ _ hlk) _ _ _ _
          · rw [htLookup_htInsert_ne _ _ hmn] at hm
            exact hinv m nd0 hm
        · intro n0 s0
          by_cases hn : n0 = wrap32 node
          · subst hn
            rw [entriesCount_of_some s0 hlk,
                entriesCount_of_some s0 (htLookup_htInsert_self _ _ _)]
            rw [add_filter_length, wrap32_wrap32]
            simp only [countEv]
            by_cases hs : wrap32 service = s0 <;>
              simp [hs] <;> omega
          · rw [entriesCount_htInsert_ne s0 hn]
            simp only [countEv]
            have hne : ¬ (wrap32 node = n0) := fun hc => hn hc.symm
            simp [hne]
  | delServer service iw node port =>
      simp only [qrtr_ctrl_message_cb]
      simp only [wfCtrl] at hwf
      rcases hlk : htLookup (wrap32 node) st with _ | nd
      · rw [remove_service_info_of_none hlk]
        dsimp only
        exact ⟨hinv, fun n0 s0 => by simp [countEv]⟩
      · rw [hlk] at hwf
        have hwf2 : wfDelNode nd service port := hwf
        simp only [wfDelNode] at hwf2
        rcases hpe : htLookup (wrap32 port) nd.port_index with _ | e0
        · rw [hpe] at hwf2
          exact hwf2.elim
        · rw [hpe] at hwf2
          have hes : e0.service = wrap32 service := hwf2
          have hpe' : htLookup (wrap32 (wrap32 port)) nd.port_index = some e0 := by
            rw [wrap32_wrap32]
            exact hpe
          have hndok := hinv _ _ hlk
          have he0 : e0 ∈ nd.service_list ∧ e0.port = wrap32 (wrap32 port) :=
            hndok.2.2 _ _ hpe'
          have hremove := remove_of_some (s := wrap32 service)
            (v := wrap32 iw % 256) (i := wrap32 iw / 256) hpe'
          rw [remove_service_info_of_some hlk]
          by_cases hsv : qrtr_node_has_services
              (qrtr_node_remove_service_info nd (wrap32 service) (wrap32 port)
                (wrap32 iw % 256) (wrap32 iw / 256))
          · rw [if_pos hsv]
            dsimp only
            constructor
            · intro m nd0 hm
              by_cases hmn : m = wrap32 node
              · subst hmn
                rw [htLookup_htInsert_self] at hm
                injection hm with hm
                subst hm
                exact busNodeOk_remove hndok _ _ _ _
              · rw [htLookup_htInsert_ne _ _ hmn] at hm
                exact hinv m nd0 hm
            · intro n0 s0
              by_cases hn : n0 = wrap32 node
              · subst hn
                rw [entriesCount_of_some s0 hlk,
                    entriesCount_of_some s0 (htLookup_htInsert_self _ _ _)]
                rw [hremove]
                dsimp only
                rw [g_list_remove_filter_length hndok.1 he0.1
                  (fun e => e.service = s0)]
                simp only [countEv]
                by_cases hs : e0.service = s0
                · have hs2 : wrap32 service = s0 := by rw [← hes]; exact hs
                  simp [hs, hs2] <;> omega
                · have hs' : ¬ (wrap32 service = s0) := by
                    rw [← hes]; exact hs
                  simp [hs, hs'] <;> omega
              · rw [entriesCount_htInsert_ne s0 hn]
                simp only [countEv]
                have hne : ¬ (wrap32 node = n0) := fun hc => hn hc.symm
                simp [hne]
          · rw [if_neg hsv]
            dsimp only
            have hflat : (qrtr_node_remove_service_info nd (wrap32 service)
                (wrap32 port) (wrap32 iw % 256) (wrap32 iw / 256)).service_list = [] := by
              unfold qrtr_node_has_services at hsv
              rcases hfl : (qrtr_node_remove_service_info nd (wrap32 service)
                  (wrap32 port) (wrap32 iw % 256) (wrap32 iw / 256)).service_list with _ | ⟨x, xs⟩
              · rfl
              · rw [hfl] at hsv
                simp at hsv
            constructor
            · intro m nd0 hm
              by_cases hmn : m = wrap32 node
              · subst hmn
                rw [htLookup_htRemove_self] at hm
                exact Option.noConfusion hm
              · rw [htLookup_htRemove_ne _ hmn] at hm
                exact hinv m nd0 hm
            · intro n0 s0
              by_cases hn : n0 = wrap32 node
              · subst hn
                rw [entriesCount_of_some s0 hlk, entriesCount_htRemove_self]
                rw [g_list_remove_filter_length hndok.1 he0.1
                  (fun e => e.service = s0)]
                have hzero : ((g_list_remove nd.service_list e0).filter
                    (fun e => e.service = s0)).length = 0 := by
                  rw [hremove] at hflat
                  dsimp only at hflat
                  rw [hflat]
                  rfl
                rw [hzero]
                simp only [countEv]
                by_cases hs : e0.service = s0
                · have hs2 : wrap32 service = s0 := by rw [← hes]; exact hs
                  simp [hs, hs2] <;> omega
                · have hs' : ¬ (wrap32 service = s0) := by
                    rw [← hes]; exact hs
                  simp [hs, hs'] <;> omega
              · rw [entriesCount_htRemove_ne s0 hn]
                simp only [countEv]
                have hne : ¬ (wrap32 node = n0) := fun hc => hn hc.symm
                simp [hne]

theorem bus_run (pks : List CtrlPacket) :
    ∀ (st : BusState) (evs : List BusEvent),
      BusInv st → wfCtrlSeq st pks →
      (∀ n0 s0, countEv evs (BusEvent.serviceAdded n0 s0)
          = countEv evs (BusEvent.serviceRemoved n0 s0) + entriesCount st n0 s0) →
      ∀ n0 s0,
        countEv (processPackets (st, evs) pks).2 (BusEvent.serviceAdded n0 s0)
          = countEv (processPackets (st, evs) pks).2 (BusEvent.serviceRemoved n0 s0)
            + entriesCount (processPackets (st, evs) pks).1 n0 s0 := by
  induction pks with
  | nil =>
      intro st evs _ _ hbase n0 s0
      exact hbase n0 s0
  | cons pk rest ih =>
      intro st evs hinv hwf hbase n0 s0
      have hstep := bus_step hinv hwf.1
      show countEv (processPackets ((qrtr_ctrl_message_cb st pk).1,
          evs ++ (qrtr_ctrl_message_cb st pk).2) rest).2 (BusEvent.serviceAdded n0 s0) = _
      refine ih _ _ hstep.1 hwf.2 ?_ n0 s0
      intro n1 s1
      rw [countEv_append, countEv_append]
      have h1 := hbase n1 s1
      have h2 := hstep.2 n1 s1
      omega

/-! ### Claim C5 -/

/-- C5: processing the DEL_SERVER packet that empties node `n`'s table
emits `service-removed(n, s)` followed by `node-removed(n)`, and
afterwards the node is no longer observable: both
`qrtr_control_socket_peek_node` and `qrtr_control_socket_get_node`
return absent. -/
theorem C5_empty_node_reaping (st : BusState)
    (node_id port service version instanceVal : Nat) (nd : NodeState)
    (hlk : htLookup node_id st = some nd)
    (hempty : (qrtr_node_remove_service_info nd service port version
        instanceVal).service_list = []) :
    (remove_service_info st node_id port service version instanceVal).2
        = [BusEvent.serviceRemoved node_id service, BusEvent.nodeRemoved node_id] ∧
    qrtr_control_socket_peek_node
        (remove_service_info st node_id port service version instanceVal).1 node_id
      = none ∧
    qrtr_control_socket_get_node
        (remove_service_info st node_id port service version instanceVal).1 node_id
      = none := by
  have hservices : qrtr_node_has_services
      (qrtr_node_remove_service_info nd service port version instanceVal) = false := by
    unfold qrtr_node_has_services
    rw [hempty]
    rfl
  rw [remove_service_info_of_some hlk, hservices]
  simp only [Bool.false_eq_true, if_false]
  refine ⟨trivial, ?_, ?_⟩
  · exact htLookup_htRemove_self _ _
  · exact htLookup_htRemove_self _ _

/-- Witness for C5: node 5 holds a single service (1 at port 1); the
DEL_SERVER for that port empties it. -/
theorem C5_empty_node_reaping_witness :
    htLookup 5 [(5, qrtr_node_add_service_info emptyNode 1 1 0 0)]
        = some (qrtr_node_add_service_info emptyNode 1 1 0 0) ∧
    (qrtr_node_remove_service_info
        (qrtr_node_add_service_info emptyNode 1 1 0 0) 1 1 0 0).service_list = [] ∧
    (remove_service_info [(5, qrtr_node_add_service_info emptyNode 1 1 0 0)] 5 1 1 0 0).2
        = [BusEvent.serviceRemoved 5 1, BusEvent.nodeRemoved 5] ∧
    qrtr_control_socket_peek_node
        (remove_service_info [(5, qrtr_node_add_service_info emptyNode 1 1 0 0)] 5 1 1 0 0).1 5
      = none :=
  ⟨by decide, by decide,
    by
      have h := C5_empty_node_reaping
        [(5, qrtr_node_add_service_info emptyNode 1 1 0 0)] 5 1 1 0 0
        (qrtr_node_add_service_info emptyNode 1 1 0 0) (by decide) (by decide)
      exact ⟨h.1, h.2.1⟩⟩

/-! ### Claim C6 -/

/-- C6, counterexample: a DEL_SERVER for a known node (1) but a port (2)
with no registered entry still emits `service-removed(1, 7)`, although
no `service-added(1, 7)` was ever emitted — `remove_service_info` emits
the signal unconditionally after the (failed) table removal. -/
theorem C6_event_pairing_counterexample :
    countEv (processPackets (emptyBus, [])
        [CtrlPacket.newServer 5 0 1 1, CtrlPacket.delServer 7 0 1 2]).2
      (BusEvent.serviceRemoved 1 7) = 1 ∧
    countEv (processPackets (emptyBus, [])
        [CtrlPacket.newServer 5 0 1 1, CtrlPacket.delServer 7 0 1 2]).2
      (BusEvent.serviceAdded 1 7) = 0 := by
  decide

/-- C6 (amended): over every control-packet sequence in which each
DEL_SERVER for a known node names a registered port carrying the
packet's service (as kernel-generated packets do), the number of
`service-added(n, s)` events equals the number of
`service-removed(n, s)` events plus the number of live entries for
service `s` on node `n` — so every emitted `service-added(n, s)` is
paired with exactly one `service-removed(n, s)` exactly when the
corresponding DEL_SERVER arrives, and no unmatched `service-removed`
is emitted. -/
theorem C6_event_pairing (pkts : List CtrlPacket)
    (hwf : wfCtrlSeq emptyBus pkts) :
    ∀ n0 s0,
      countEv (processPackets (emptyBus, []) pkts).2 (BusEvent.serviceAdded n0 s0)
        = countEv (processPackets (emptyBus, []) pkts).2 (BusEvent.serviceRemoved n0 s0)
          + entriesCount (processPackets (emptyBus, []) pkts).1 n0 s0 := by
  refine bus_run pkts emptyBus [] ?_ hwf ?_
  · intro node nd h
    exact Option.noConfusion h
  · intro n0 s0
    simp [countEv, entriesCount, emptyBus, htLookup]

/-- Witness for C6: one NEW_SERVER and its matching DEL_SERVER. -/
theorem C6_event_pairing_witness :
    wfCtrlSeq emptyBus [CtrlPacket.newServer 5 0 1 1, CtrlPacket.delServer 5 0 1 1] ∧
    countEv (processPackets (emptyBus, [])
        [CtrlPacket.newServer 5 0 1 1, CtrlPacket.delServer 5 0 1 1]).2
      (BusEvent.serviceAdded 1 5)
      = countEv (processPackets (emptyBus, [])
          [CtrlPacket.newServer 5 0 1 1, CtrlPacket.delServer 5 0 1 1]).2
        (BusEvent.serviceRemoved 1 5)
        + entriesCount (processPackets (emptyBus, [])
            [CtrlPacket.newServer 5 0 1 1, CtrlPacket.delServer 5 0 1 1]).1 1 5 :=
  ⟨by decide, C6_event_pairing _ (by decide) 1 5⟩

/-! ### Waiter helpers -/

theorem waitStep_node_id (t : WaitTask) (ev : WaitEvent) :
    (waitStep t ev).ctx.node_id = t.ctx.node_id := by
  cases ev with
  | timerFire =>
      by_cases hs : t.ctx.timeout_source <;>
        simp [waitStep, hs, wait_for_node_context_cleanup]
  | nodeAdded id =>
      by_cases ha : t.ctx.added_id
      · by_cases hid : id = t.ctx.node_id <;>
          simp [waitStep, ha, hid, wait_for_node_context_cleanup]
      · simp [waitStep, ha]
  | cancelRequest => rfl

theorem waitStep_preserves (t : WaitTask) (ev : WaitEvent)
    (h1 : t.completions.length ≤ 1)
    (h2 : t.completions ≠ [] → t.ctx.added_id = false ∧ t.ctx.timeout_source = false) :
    (waitStep t ev).completions.length ≤ 1 ∧
    ((waitStep t ev).completions ≠ [] →
      (waitStep t ev).ctx.added_id = false ∧
      (waitStep t ev).ctx.timeout_source = false) := by
  cases ev with
  | timerFire =>
      by_cases hs : t.ctx.timeout_source
      · have hemp : t.completions = [] := by
          by_contra hne
          have := (h2 hne).2
          rw [this] at hs
          exact Bool.noConfusion hs
        simp [waitStep, hs, hemp, wait_for_node_context_cleanup]
      · have hids : waitStep t WaitEvent.timerFire = t := by simp [waitStep, hs]
        rw [hids]
        exact ⟨h1, h2⟩
  | nodeAdded id =>
      by_cases ha : t.ctx.added_id
      · by_cases hid : id = t.ctx.node_id
        · have hemp : t.completions = [] := by
            by_contra hne
            have := (h2 hne).1
            rw [this] at ha
            exact Bool.noConfusion ha
          simp [waitStep, ha, hid, hemp, wait_for_node_context_cleanup]
        · have hids : waitStep t (WaitEvent.nodeAdded id) = t := by
            simp [waitStep, ha, hid]
          rw [hids]
          exact ⟨h1, h2⟩
      · have hids : waitStep t (WaitEvent.nodeAdded id) = t := by
          simp [waitStep, ha]
        rw [hids]
        exact ⟨h1, h2⟩
  | cancelRequest => exact ⟨h1, h2⟩

theorem waitRun_preserves (evs : List WaitEvent) :
    ∀ t : WaitTask,
      t.completions.length ≤ 1 →
      (t.completions ≠ [] → t.ctx.added_id = false ∧ t.ctx.timeout_source = false) →
      (waitRun t evs).completions.length ≤ 1 ∧
      ((waitRun t evs).completions ≠ [] →
        (waitRun t evs).ctx.added_id = false ∧
        (waitRun t evs).ctx.timeout_source = false) := by
  induction evs with
  | nil => intro t h1 h2; exact ⟨h1, h2⟩
  | cons ev rest ih =>
      intro t h1 h2
      have hstep := waitStep_preserves t ev h1 h2
      exact ih (waitStep t ev) hstep.1 hstep.2

theorem waitRun_inert (evs : List WaitEvent) :
    ∀ t : WaitTask, t.ctx.added_id = false → t.ctx.timeout_source = false →
      waitRun t evs = t := by
  induction evs with
  | nil => intro t _ _; rfl
  | cons ev rest ih =>
      intro t ha hs
      have hstep : waitStep t ev = t := by
        cases ev with
        | timerFire => simp [waitStep, hs]
        | nodeAdded id => simp [waitStep, ha]
        | cancelRequest => rfl
      show waitRun (waitStep t ev) rest = t
      rw [hstep]
      exact ih t ha hs

theorem waitStep_Qt (t : WaitTask) (ev : WaitEvent)
    (h2 : t.completions ≠ [] → t.ctx.added_id = false ∧ t.ctx.timeout_source = false)
    (hq : t.completions.length = 1 ∨
      (t.completions = [] ∧ t.ctx.timeout_source = true)) :
    (waitStep t ev).completions.length = 1 ∨
    ((waitStep t ev).completions = [] ∧ (waitStep t ev).ctx.timeout_source = true) := by
  cases ev with
  | timerFire =>
      by_cases hs : t.ctx.timeout_source
      · rcases hq with hlen | ⟨hemp, _⟩
        · exfalso
          have hne : t.completions ≠ [] := by
            intro hc
            rw [hc] at hlen
            exact Nat.noConfusion hlen
          have := (h2 hne).2
          rw [this] at hs
          exact Bool.noConfusion hs
        · left
          simp [waitStep, hs, hemp]
      · have hids : waitStep t WaitEvent.timerFire = t := by simp [waitStep, hs]
        rw [hids]
        exact hq
  | nodeAdded id =>
      by_cases ha : t.ctx.added_id
      · by_cases hid : id = t.ctx.node_id
        · rcases hq with hlen | ⟨hemp, _⟩
          · exfalso
            have hne : t.completions ≠ [] := by
              intro hc
              rw [hc] at hlen
              exact Nat.noConfusion hlen
            have := (h2 hne).1
            rw [this] at ha
            exact Bool.noConfusion ha
          · left
            simp [waitStep, ha, hid, hemp]
        · have hids : waitStep t (WaitEvent.nodeAdded id) = t := by
            simp [waitStep, ha, hid]
          rw [hids]
          exact hq
      · have hids : waitStep t (WaitEvent.nodeAdded id) = t := by
          simp [waitStep, ha]
        rw [hids]
        exact hq
  | cancelRequest => exact hq

theorem waitStep_Qa (t : WaitTask) (ev : WaitEvent)
    (h2 : t.completions ≠ [] → t.ctx.added_id = false ∧ t.ctx.timeout_source = false)
    (hq : t.completions.length = 1 ∨
      (t.completions = [] ∧ t.ctx.added_id = true)) :
    (waitStep t ev).completions.length = 1 ∨
    ((waitStep t ev).completions = [] ∧ (waitStep t ev).ctx.added_id = true) := by
  cases ev with
  | timerFire =>
      by_cases hs : t.ctx.timeout_source
      · have hemp : t.completions = [] := by
          by_contra hne
          have := (h2 hne).2
          rw [this] at hs
          exact Bool.noConfusion hs
        left
        simp [waitStep, hs, hemp]
      · have hids : waitStep t WaitEvent.timerFire = t := by simp [waitStep, hs]
        rw [hids]
        exact hq
  | nodeAdded id =>
      by_cases ha : t.ctx.added_id
      · by_cases hid : id = t.ctx.node_id
        · have hemp : t.completions = [] := by
            by_contra hne
            have := (h2 hne).1
            rw [this] at ha
            exact Bool.noConfusion ha
          left
          simp [waitStep, ha, hid, hemp]
        · have hids : waitStep t (WaitEvent.nodeAdded id) = t := by
            simp [waitStep, ha, hid]
          rw [hids]
          exact hq
      · rcases hq with hlen | ⟨_, hcon⟩
        · left
          have hids : waitStep t (WaitEvent.nodeAdded id) = t := by
            simp [waitStep, ha]
          rw [hids]
          exact hlen
        · rw [hcon] at ha
          exact absurd rfl ha
  | cancelRequest => exact hq

theorem waitRun_timer_hits (evs : List WaitEvent) :
    ∀ t : WaitTask,
      t.completions.length ≤ 1 →
      (t.completions ≠ [] → t.ctx.added_id = false ∧ t.ctx.timeout_source = false) →
      (t.completions.length = 1 ∨ (t.completions = [] ∧ t.ctx.timeout_source = true)) →
      WaitEvent.timerFire ∈ evs →
      (waitRun t evs).completions.length = 1 := by
  induction evs with
  | nil => intro t _ _ _ hmem; exact absurd hmem (List.not_mem_nil _)
  | cons ev rest ih =>
      intro t h1 h2 hq hmem
      have hstep := waitStep_preserves t ev h1 h2
      by_cases hev : ev = WaitEvent.timerFire
      · subst hev
        have hlen1 : (waitStep t WaitEvent.timerFire).completions.length = 1 := by
          by_cases hs : t.ctx.timeout_source
          · have hemp : t.completions = [] := by
              by_contra hne
              have := (h2 hne).2
              rw [this] at hs
              exact Bool.noConfusion hs
            simp [waitStep, hs, hemp]
          · have hids : waitStep t WaitEvent.timerFire = t := by simp [waitStep, hs]
            rw [hids]
            rcases hq with hlen | ⟨_, hcon⟩
            · exact hlen
            · rw [hcon] at hs
              exact absurd rfl hs
        have hne : (waitStep t WaitEvent.timerFire).completions ≠ [] := by
          intro hc
          rw [hc] at hlen1
          exact Nat.noConfusion hlen1
        have hflags := hstep.2 hne
        show (waitRun (waitStep t WaitEvent.timerFire) rest).completions.length = 1
        rw [waitRun_inert rest _ hflags.1 hflags.2]
        exact hlen1
      · have hmem' : WaitEvent.timerFire ∈ rest := by
          rcases List.mem_cons.mp hmem with heq | hm
          · exact absurd heq.symm hev
          · exact hm
        exact ih (waitStep t ev) hstep.1 hstep.2 (waitStep_Qt t ev h2 hq) hmem'

theorem waitRun_added_hits (nid : Nat) (evs : List WaitEvent) :
    ∀ t : WaitTask,
      t.ctx.node_id = nid →
      t.completions.length ≤ 1 →
      (t.completions ≠ [] → t.ctx.added_id = false ∧ t.ctx.timeout_source = false) →
      (t.completions.length = 1 ∨ (t.completions = [] ∧ t.ctx.added_id = true)) →
      WaitEvent.nodeAdded nid ∈ evs →
      (waitRun t evs).completions.length = 1 := by
  induction evs with
  | nil => intro t _ _ _ _ hmem; exact absurd hmem (List.not_mem_nil _)
  | cons ev rest ih =>
      intro t hnid h1 h2 hq hmem
      have hstep := waitStep_preserves t ev h1 h2
      by_cases hev : ev = WaitEvent.nodeAdded nid
      · subst hev
        have hlen1 : (waitStep t (WaitEvent.nodeAdded nid)).completions.length = 1 := by
          by_cases ha : t.ctx.added_id
          · have hemp : t.completions = [] := by
              by_contra hne
              have := (h2 hne).1
              rw [this] at ha
              exact Bool.noConfusion ha
            simp [waitStep, ha, hnid.symm, hemp]
          · have hids : waitStep t (WaitEvent.nodeAdded nid) = t := by
              simp [waitStep, ha]
            rw [hids]
            rcases hq with hlen | ⟨_, hcon⟩
            · exact hlen
            · rw [hcon] at ha
              exact absurd rfl ha
        have hne : (waitStep t (WaitEvent.nodeAdded nid)).completions ≠ [] := by
          intro hc
          rw [hc] at hlen1
          exact Nat.noConfusion hlen1
        have hflags := hstep.2 hne
        show (waitRun (waitStep t (WaitEvent.nodeAdded nid)) rest).completions.length = 1
        rw [waitRun_inert rest _ hflags.1 hflags.2]
        exact hlen1
      · have hmem' : WaitEvent.nodeAdded nid ∈ rest := by
          rcases List.mem_cons.mp hmem with heq | hm
          · exact absurd heq.symm hev
          · exact hm
        refine ih (waitStep t ev) ?_ hstep.1 hstep.2 (waitStep_Qa t ev h2 hq) hmem'
        rw [waitStep_node_id]
        exact hnid

theorem waitRun_never_matched (nid : Nat) (evs : List WaitEvent) :
    ∀ t : WaitTask, t.ctx.timeout_source = false → t.ctx.node_id = nid →
      (∀ e ∈ evs, e ≠ WaitEvent.nodeAdded nid) → waitRun t evs = t := by
  induction evs with
  | nil => intro t _ _ _; rfl
  | cons ev rest ih =>
      intro t hs hnid hnever
      have hstep : waitStep t ev = t := by
        cases ev with
        | timerFire => simp [waitStep, hs]
        | nodeAdded id =>
            by_cases ha : t.ctx.added_id
            · have hne : id ≠ t.ctx.node_id := by
                intro hc
                exact hnever _ (List.mem_cons_self _ _) (by rw [hc, hnid])
              simp [waitStep, ha, hne]
            · simp [waitStep, ha]
        | cancelRequest => rfl
      show waitRun (waitStep t ev) rest = t
      rw [hstep]
      exact ih t hs hnid (fun e he => hnever e (List.mem_cons_of_mem _ he))

/-! ### Claim C4 -/

/-- C4, counterexample: cancelling the caller's `GCancellable` is *not*
a completion path — `qrtr_control_socket_wait_for_node` connects no
handler to it.  For a fresh waiter (node 7, timeout 5 ms) a cancellation
request completes nothing and tears nothing down: the `node-added`
handler stays connected and the timeout source stays alive, refuting
the claim that exactly one of the three paths completes the waiter and
that the first to fire tears down the other. -/
theorem C4_cancellation_counterexample :
    (waitRun (qrtr_control_socket_wait_for_node emptyBus 7 5)
        [WaitEvent.cancelRequest]).completions = [] ∧
    (waitRun (qrtr_control_socket_wait_for_node emptyBus 7 5)
        [WaitEvent.cancelRequest]).ctx.added_id = true ∧
    (waitRun (qrtr_control_socket_wait_for_node emptyBus 7 5)
        [WaitEvent.cancelRequest]).ctx.timeout_source = true := by
  decide

/-- C4 (amended): for every waiter and every event interleaving, at most
one of the two real completion paths (node delivered, timeout error)
completes the waiter; the completing path tears the other down — a
completed waiter has the handler disconnected and the timeout source
destroyed; and exactly one completion happens by the time the timer
fires (when `timeout_ms > 0`) or a matching `node-added` is delivered.
Caller cancellation is not a completion path. -/
theorem C4_completion_exclusivity (st : BusState) (node_id timeout_ms : Nat)
    (evs : List WaitEvent) :
    (waitRun (qrtr_control_socket_wait_for_node st node_id timeout_ms)
        evs).completions.length ≤ 1 ∧
    ((waitRun (qrtr_control_socket_wait_for_node st node_id timeout_ms)
        evs).completions ≠ [] →
      (waitRun (qrtr_control_socket_wait_for_node st node_id timeout_ms)
          evs).ctx.added_id = false ∧
      (waitRun (qrtr_control_socket_wait_for_node st node_id timeout_ms)
          evs).ctx.timeout_source = false) ∧
    (0 < timeout_ms → WaitEvent.timerFire ∈ evs →
      (waitRun (qrtr_control_socket_wait_for_node st node_id timeout_ms)
          evs).completions.length = 1) ∧
    (WaitEvent.nodeAdded node_id ∈ evs →
      (waitRun (qrtr_control_socket_wait_for_node st node_id timeout_ms)
          evs).completions.length = 1) := by
  set t0 := qrtr_control_socket_wait_for_node st node_id timeout_ms with ht0
  have hP1 : t0.completions.length ≤ 1 := by
    rw [ht0]
    unfold qrtr_control_socket_wait_for_node
    split <;> simp
  have hP2 : t0.completions ≠ [] →
      t0.ctx.added_id = false ∧ t0.ctx.timeout_source = false := by
    rw [ht0]
    unfold qrtr_control_socket_wait_for_node
    split
    · intro _
      exact ⟨rfl, rfl⟩
    · intro h
      exact absurd rfl h
  have hnid : t0.ctx.node_id = node_id := by
    rw [ht0]
    unfold qrtr_control_socket_wait_for_node
    split <;> rfl
  have hrun := waitRun_preserves evs t0 hP1 hP2
  refine ⟨hrun.1, hrun.2, ?_, ?_⟩
  · intro htm hmem
    refine waitRun_timer_hits evs t0 hP1 hP2 ?_ hmem
    rw [ht0]
    unfold qrtr_control_socket_wait_for_node
    split
    · left
      rfl
    · right
      refine ⟨rfl, ?_⟩
      simp [htm]
  · intro hmem
    refine waitRun_added_hits node_id evs t0 hnid hP1 hP2 ?_ hmem
    rw [ht0]
    unfold qrtr_control_socket_wait_for_node
    split
    · left
      rfl
    · right
      exact ⟨rfl, rfl⟩

/-- Witness for C4: with a 5 ms timeout on an empty bus, the timer
firing completes the waiter exactly once. -/
theorem C4_completion_exclusivity_witness :
    0 < 5 ∧ WaitEvent.timerFire ∈ [WaitEvent.timerFire] ∧
    (waitRun (qrtr_control_socket_wait_for_node emptyBus 7 5)
        [WaitEvent.timerFire]).completions.length = 1 :=
  ⟨by decide, by decide,
    (C4_completion_exclusivity emptyBus 7 5 [WaitEvent.timerFire]).2.2.1
      (by decide) (by decide)⟩

/-! ### Claim C10 -/

/-- C10: with `timeout_ms = 0` no timeout source is created, so a waiter
for a node that is not registered can never be completed by the timeout
path: as long as no `node-added` for the requested id is emitted the
waiter stays exactly as created — pending forever, with an empty
completion list. -/
theorem C10_zero_timeout_pending (st : BusState) (node_id : Nat)
    (evs : List WaitEvent)
    (hnever : ∀ e ∈ evs, e ≠ WaitEvent.nodeAdded node_id) :
    (qrtr_control_socket_wait_for_node st node_id 0).ctx.timeout_source = false ∧
    (htLookup node_id st = none →
      waitRun (qrtr_control_socket_wait_for_node st node_id 0) evs
          = qrtr_control_socket_wait_for_node st node_id 0 ∧
      (waitRun (qrtr_control_socket_wait_for_node st node_id 0)
          evs).completions = []) := by
  constructor
  · unfold qrtr_control_socket_wait_for_node
    split <;> rfl
  · intro habs
    have hrw : qrtr_control_socket_wait_for_node st node_id 0
        = ⟨⟨node_id, true, false⟩, []⟩ := by
      unfold qrtr_control_socket_wait_for_node
      rw [habs]
      rfl
    have hfix := waitRun_never_matched node_id evs
      ⟨⟨node_id, true, false⟩, []⟩ rfl rfl hnever
    rw [hrw]
    exact ⟨hfix, by rw [hfix]⟩

/-- Witness for C10 at a concrete waiter and event sequence. -/
theorem C10_zero_timeout_pending_witness :
    (∀ e ∈ [WaitEvent.timerFire, WaitEvent.nodeAdded 3, WaitEvent.cancelRequest],
        e ≠ WaitEvent.nodeAdded 7) ∧
    htLookup 7 emptyBus = none ∧
    (qrtr_control_socket_wait_for_node emptyBus 7 0).ctx.timeout_source = false ∧
    (waitRun (qrtr_control_socket_wait_for_node emptyBus 7 0)
        [WaitEvent.timerFire, WaitEvent.nodeAdded 3,
          WaitEvent.cancelRequest]).completions = [] :=
  ⟨by decide, by decide,
    (C10_zero_timeout_pending emptyBus 7
      [WaitEvent.timerFire, WaitEvent.nodeAdded 3, WaitEvent.cancelRequest]
      (by decide)).1,
    ((C10_zero_timeout_pending emptyBus 7
      [WaitEvent.timerFire, WaitEvent.nodeAdded 3, WaitEvent.cancelRequest]
      (by decide)).2 (by decide)).2⟩

/-! ### URI helpers: lemmas -/

theorem digitChar_facts {d : Nat} (h : d < 10) :
    (Char.ofNat (48 + d)).toNat = 48 + d ∧
    isDigitChar (Char.ofNat (48 + d)) = true ∧
    isSpaceChar (Char.ofNat (48 + d)) = false ∧
    Char.ofNat (48 + d) ≠ '-' ∧
    Char.ofNat (48 + d) ≠ '+' := by
  interval_cases d <;> exact (by decide)

theorem takeWhile_all {p : Char → Bool} :
    ∀ l : List Char, (∀ c ∈ l, p c = true) → l.takeWhile p = l := by
  intro l
  induction l with
  | nil => intro _; rfl
  | cons c t ih =>
      intro h
      simp [List.takeWhile, h c (List.mem_cons_self c t),
        ih (fun x hx => h x (List.mem_cons_of_mem c hx))]

theorem foldl_digits_rev (L : List Nat) (hL : ∀ d ∈ L, d < 10) :
    ∀ a : Nat,
      List.foldl (fun x c => 10 * x + (c.toNat - 48)) a
          (L.reverse.map (fun d => Char.ofNat (48 + d)))
        = a * 10 ^ L.length + Nat.ofDigits 10 L := by
  induction L with
  | nil =>
      intro a
      simp [Nat.ofDigits_nil]
  | cons d L ih =>
      intro a
      have hd := hL d (List.mem_cons_self _ _)
      rw [List.reverse_cons, List.map_append, List.foldl_append]
      rw [ih (fun x hx => hL x (List.mem_cons_of_mem _ hx)) a]
      simp only [List.map_cons, List.map_nil, List.foldl_cons, List.foldl_nil]
      rw [(digitChar_facts hd).1]
      have h48 : 48 + d - 48 = d := by omega
      rw [h48, Nat.ofDigits_cons, List.length_cons, pow_succ]
      ring

theorem decimalChars_digits (n : Nat) :
    ∀ c ∈ decimalChars n,
      isDigitChar c = true ∧ isSpaceChar c = false ∧ c ≠ '-' ∧ c ≠ '+' := by
  intro c hc
  unfold decimalChars at hc
  by_cases h0 : n = 0
  · rw [if_pos h0] at hc
    have : c = '0' := List.mem_singleton.mp hc
    subst this
    exact ⟨by decide, by decide, by decide, by decide⟩
  · rw [if_neg h0] at hc
    simp only [List.mem_map, List.mem_reverse] at hc
    obtain ⟨d, hd, rfl⟩ := hc
    have hlt : d < 10 := Nat.digits_lt_base (by norm_num) hd
    have hf := digitChar_facts hlt
    exact ⟨hf.2.1, hf.2.2.1, hf.2.2.2.1, hf.2.2.2.2⟩

theorem strtoul10_decimalChars {n : Nat} (h : n < 18446744073709551616) :
    strtoul10 (decimalChars n) = (n, true) := by
  by_cases h0 : n = 0
  · subst h0
    decide
  · have hdig := decimalChars_digits n
    obtain ⟨c, t, hct⟩ : ∃ c t, decimalChars n = c :: t := by
      unfold decimalChars
      rw [if_neg h0]
      rcases hd : (Nat.digits 10 n).reverse with _ | ⟨d, ds⟩
      · exfalso
        have hnil : Nat.digits 10 n = [] := by
          have := congrArg List.reverse hd
          simpa using this
        exact h0 (Nat.digits_eq_nil_iff_eq_zero.mp hnil)
      · exact ⟨Char.ofNat (48 + d), List.map (fun d => Char.ofNat (48 + d)) ds, rfl⟩
    have hc := hdig c (by rw [hct]; exact List.mem_cons_self _ _)
    have hdrop : (decimalChars n).dropWhile isSpaceChar = decimalChars n := by
      rw [hct]
      simp [List.dropWhile, hc.2.1]
    have htake : (c :: t).takeWhile isDigitChar = c :: t := by
      rw [← hct]
      exact takeWhile_all _ (fun x hx => (hdig x hx).1)
    have hfold : List.foldl (fun a c => 10 * a + (c.toNat - 48)) 0 (c :: t) = n := by
      rw [← hct]
      unfold decimalChars
      rw [if_neg h0]
      rw [foldl_digits_rev (Nat.digits 10 n)
        (fun d hd => Nat.digits_lt_base (by norm_num) hd) 0]
      simp [Nat.ofDigits_digits]
    simp only [strtoul10]
    rw [hdrop, hct]
    simp only [htake]
    have hneg : (decide (c = '-')) = false := by
      simp [hc.2.2.1]
    have hsign : (¬ (c = '-' ∨ c = '+')) := by
      rintro (hcon | hcon)
      · exact hc.2.2.1 hcon
      · exact hc.2.2.2 hcon
    simp only [hneg, if_neg hsign, htake, List.isEmpty_cons, Bool.false_eq_true,
      if_false, hfold]
    rw [if_neg (by omega : ¬ 18446744073709551616 ≤ n)]

theorem strncasecmp_head (rest : List Char) :
    g_ascii_strncasecmp 7 (qrtrUriHead ++ rest) qrtrUriHead = 0 := rfl

/-! ### Claim C7 -/

/-- C7: URI round-trip.  For every `n` in `[0, 2^32)`,
`qrtr_get_node_for_uri (qrtr_get_uri_for_node n)` succeeds and yields
`n`; and `qrtr_get_node_for_uri` rejects `"qrtr://"` (no digits),
`"qrtr:/5"` (malformed head), `"http://5"` (wrong scheme) and `""`. -/
theorem C7_uri_round_trip :
    (∀ n : Nat, n < 4294967296 →
        qrtr_get_node_for_uri (qrtr_get_uri_for_node n) = some n) ∧
    qrtr_get_node_for_uri ['q', 'r', 't', 'r', ':', '/', '/'] = none ∧
    qrtr_get_node_for_uri ['q', 'r', 't', 'r', ':', '/', '5'] = none ∧
    qrtr_get_node_for_uri ['h', 't', 't', 'p', ':', '/', '/', '5'] = none ∧
    qrtr_get_node_for_uri [] = none := by
  refine ⟨?_, by decide, by decide, by decide, by decide⟩
  intro n hn
  unfold qrtr_get_uri_for_node qrtr_get_node_for_uri
  rw [strncasecmp_head]
  rw [if_neg (fun hc => hc rfl)]
  have hdropapp : (qrtrUriHead ++ decimalChars n).drop 7 = decimalChars n :=
    List.drop_left qrtrUriHead (decimalChars n)
  simp only [hdropapp]
  rw [strtoul10_decimalChars (by omega : n < 18446744073709551616)]
  simp only [not_true, Bool.true_eq_false, if_false]
  rw [Nat.mod_eq_of_lt hn]

/-- Witness for C7's quantified round-trip part at `n = 42`. -/
theorem C7_uri_round_trip_witness :
    (42 : Nat) < 4294967296 ∧
    qrtr_get_node_for_uri (qrtr_get_uri_for_node 42) = some 42 :=
  ⟨by decide, C7_uri_round_trip.1 42 (by decide)⟩
